import Mathlib

/-!
Verification of the sapp trace-graph trimmer (`trimmed_trace_graph.py`),
the bulk saver (`bulk_saver.py`) and the decorator contracts pinned by
`tests/decorators_test.py`.

The data model and the query/insert primitives of the base `TraceGraph`
class live in `trace_graph.py` / `models.py`, which are not part of the
shown sources; those primitives are modelled from the specification
(section 3 and 4.1): entity collections are id-keyed maps (modelled as
lists with insert-if-absent by id, reflecting idempotent dict writes of
identical records), association collections are sets of id pairs
(modelled as duplicate-free lists), and the forward/reverse trace-frame
adjacency is derived from caller/callee linkage.  Every algorithm of
`trimmed_trace_graph.py` and `bulk_saver.py` is translated from the
source itself.  Python `while` worklist loops become fuel-indexed
recursions returning `Option` (`none` = fuel exhausted); structural
faults that raise in Python (a referenced id absent from the graph) are
modelled as benign skips and, where a claim depends on them, excluded by
explicit well-formedness hypotheses.
-/

namespace Sapp

/-- Trace direction of a frame: `postcondition` frames trace toward
sources, `precondition` frames toward sinks. -/
inductive TraceKind where
  | precondition
  | postcondition
  deriving DecidableEq, Repr

/-- Kinds of interned `SharedText` entries. -/
inductive SharedTextKind where
  | source
  | sink
  | message
  | filename
  | callable
  deriving DecidableEq, Repr

/-- An interned string with a kind. -/
structure SharedText where
  id : Nat
  contents : String
  kind : SharedTextKind
  deriving DecidableEq, Repr

/-- A finding definition. -/
structure Issue where
  id : Nat
  code : Nat
  deriving DecidableEq, Repr

/-- One concrete occurrence of an issue, with the mutable derived fields
recomputed after trimming. -/
structure IssueInstance where
  id : Nat
  issue_id : Nat
  filename_id : Nat
  callable_id : Nat
  message_id : Nat
  min_trace_length_to_sources : Nat
  min_trace_length_to_sinks : Nat
  callable_count : Nat
  deriving DecidableEq, Repr

/-- One entry of a frame's leaf-translation table: the leaf id meaningful
at the callee hop maps to the leaf id meaningful at the caller hop. -/
structure LeafMapping where
  callee_leaf : Nat
  caller_leaf : Nat
  deriving DecidableEq, Repr

/-- One hop of a taint trace. -/
structure TraceFrame where
  id : Nat
  kind : TraceKind
  caller_id : Nat
  caller_port : String
  callee_id : Nat
  callee_port : String
  filename_id : Nat
  leaf_mapping : List LeafMapping
  deriving DecidableEq, Repr

/-- Side information attached to a trace frame, rooting a sub-trace
(`TraceFrameAnnotation` in the source). -/
structure TraceFrameAnnot where
  id : Nat
  trace_frame_id : Nat
  deriving DecidableEq, Repr

/-- Optional suggested-fix metadata of an instance. -/
structure IssueInstanceFixInfo where
  id : Nat
  deriving DecidableEq, Repr

/-- Modelled from the spec: the in-memory graph of `trace_graph.py`
(not among the shown sources).  Entity collections are id-keyed maps,
association collections are sets of id tuples; both forward and reverse
adjacency indexes of an association are derived from the single
underlying relation, which the spec requires the two indexes to agree
on. -/
structure TraceGraph where
  shared_texts : List SharedText
  issues : List Issue
  issue_instances : List IssueInstance
  trace_frames : List TraceFrame
  trace_annots : List TraceFrameAnnot
  issue_instance_fix_info : List (Nat × IssueInstanceFixInfo)
  issue_instance_trace_frame_assoc : List (Nat × Nat)
  issue_instance_shared_text_assoc : List (Nat × Nat)
  trace_frame_leaf_assoc : List (Nat × Nat × Option Nat)
  trace_frame_annot_trace_frame_assoc : List (Nat × Nat)
  deriving DecidableEq, Repr

/-- The empty graph (`TrimmedTraceGraph.__init__` starts from one). -/
def TraceGraph.empty : TraceGraph :=
  ⟨[], [], [], [], [], [], [], [], [], []⟩

/-- Lookup of a shared text by local id (`get_shared_text_by_local_id`). -/
def TraceGraph.text_by_id (g : TraceGraph) (i : Nat) : Option SharedText :=
  g.shared_texts.find? (fun t => t.id == i)

/-- `get_text`: the contents of the shared text with the given id. -/
def TraceGraph.get_text (g : TraceGraph) (i : Nat) : Option String :=
  (g.text_by_id i).map (fun t => t.contents)

/-- Lookup of an issue instance by local id. -/
def TraceGraph.instance_by_id (g : TraceGraph) (i : Nat) : Option IssueInstance :=
  g.issue_instances.find? (fun x => x.id == i)

/-- Lookup of an issue by local id. -/
def TraceGraph.issue_by_id (g : TraceGraph) (i : Nat) : Option Issue :=
  g.issues.find? (fun x => x.id == i)

/-- Lookup of a trace frame by local id (`get_trace_frame_from_id`). -/
def TraceGraph.frame_by_id (g : TraceGraph) (i : Nat) : Option TraceFrame :=
  g.trace_frames.find? (fun x => x.id == i)

/-- Lookup of the fix info of an instance. -/
def TraceGraph.fix_info_of (g : TraceGraph) (iid : Nat) : Option IssueInstanceFixInfo :=
  (g.issue_instance_fix_info.find? (fun e => e.1 == iid)).map (fun e => e.2)

/-- The leaf associations `(leaf_id, trace_length)` of one frame
(`_trace_frame_leaf_assoc[frame_id]`). -/
def TraceGraph.leaf_assocs_of (g : TraceGraph) (fid : Nat) : List (Nat × Option Nat) :=
  (g.trace_frame_leaf_assoc.filter (fun a => a.1 == fid)).map (fun a => a.2)

/-- Modelled from the spec: `get_incoming_leaf_kinds_of_frame` returns the
set of leaf ids recorded for the frame by the leaf association. -/
def TraceGraph.get_incoming_leaf_kinds_of_frame (g : TraceGraph) (f : TraceFrame) :
    Finset Nat :=
  ((g.leaf_assocs_of f.id).map (fun p => p.1)).toFinset

/-- Modelled from the spec: `compute_prev_leaf_kinds` maps a leaf set of
the current hop through a frame's `leaf_mapping` to the corresponding
leaf ids of the predecessor hop; empty if no current leaf has a mapped
predecessor. -/
def compute_prev_leaf_kinds (leaves : Finset Nat) (lm : List LeafMapping) : Finset Nat :=
  ((lm.filter (fun m => decide (m.callee_leaf ∈ leaves))).map
    (fun m => m.caller_leaf)).toFinset

/-- Modelled from the spec: `get_next_trace_frames` returns the successor
frames in the same direction, via caller/callee linkage. -/
def TraceGraph.get_next_trace_frames (g : TraceGraph) (f : TraceFrame) : List TraceFrame :=
  g.trace_frames.filter (fun nf =>
    nf.kind == f.kind && nf.caller_id == f.callee_id && nf.caller_port == f.callee_port)

/-- Modelled from the spec: the reverse index
`_trace_frames_rev_map[kind][(caller_id, caller_port)]` lists the
predecessor frames of `f`: same kind, callee linkage equal to `f`'s
caller key. -/
def TraceGraph.rev_map_frames (g : TraceGraph) (f : TraceFrame) : List TraceFrame :=
  g.trace_frames.filter (fun p =>
    p.kind == f.kind && p.callee_id == f.caller_id && p.callee_port == f.caller_port)

/-- Modelled from the spec: `get_issue_instance_shared_texts` resolves an
instance's text associations and filters by kind. -/
def TraceGraph.get_issue_instance_shared_texts (g : TraceGraph) (iid : Nat)
    (k : SharedTextKind) : List SharedText :=
  (g.issue_instance_shared_text_assoc.filter (fun a => a.1 == iid)).filterMap
    (fun a =>
      match g.text_by_id a.2 with
      | some t => if t.kind == k then some t else none
      | none => none)

/-- The first-hop frame ids of an instance
(`_issue_instance_trace_frame_assoc[instance_id]`). -/
def TraceGraph.instance_tf_assoc_ids (g : TraceGraph) (iid : Nat) : List Nat :=
  (g.issue_instance_trace_frame_assoc.filter (fun a => a.1 == iid)).map (fun a => a.2)

/-- The instance ids associated with a frame
(`_trace_frame_issue_instance_assoc[frame_id]`, the reverse index of the
same relation). -/
def TraceGraph.frame_issue_instances (g : TraceGraph) (fid : Nat) : List Nat :=
  (g.issue_instance_trace_frame_assoc.filter (fun a => a.2 == fid)).map (fun a => a.1)

/-- The text ids associated with an instance
(`_issue_instance_shared_text_assoc[instance_id]`). -/
def TraceGraph.instance_text_assoc_ids (g : TraceGraph) (iid : Nat) : List Nat :=
  (g.issue_instance_shared_text_assoc.filter (fun a => a.1 == iid)).map (fun a => a.2)

/-- `get_condition_annotations`: the annotations whose parent is the
given frame. -/
def TraceGraph.get_condition_annots (g : TraceGraph) (fid : Nat) : List TraceFrameAnnot :=
  g.trace_annots.filter (fun a => a.trace_frame_id == fid)

/-- `get_annotation_trace_frames`: the child frames of an annotation
(resolved through the annotation/frame association). -/
def TraceGraph.get_annot_trace_frames (g : TraceGraph) (aid : Nat) : List TraceFrame :=
  (g.trace_frame_annot_trace_frame_assoc.filter (fun a => a.1 == aid)).filterMap
    (fun a => g.frame_by_id a.2)

/-! ### Insert primitives (modelled from the spec, section 4.1)

The graph is write-once per id: a re-add of an entity already keyed is
the identity (in the trimmer, re-adds always carry the identical record
copied from the same source graph, so Python's dict overwrite and the
insert-if-absent below agree).  Association inserts are set inserts. -/

/-- `add_shared_text` (insert-if-absent by id). -/
def TraceGraph.add_shared_text (g : TraceGraph) (t : SharedText) : TraceGraph :=
  if (g.text_by_id t.id).isSome then g
  else { g with shared_texts := t :: g.shared_texts }

/-- `add_issue` (insert-if-absent by id). -/
def TraceGraph.add_issue (g : TraceGraph) (i : Issue) : TraceGraph :=
  if (g.issue_by_id i.id).isSome then g
  else { g with issues := i :: g.issues }

/-- `add_issue_instance` (insert-if-absent by id). -/
def TraceGraph.add_issue_instance (g : TraceGraph) (i : IssueInstance) : TraceGraph :=
  if (g.instance_by_id i.id).isSome then g
  else { g with issue_instances := i :: g.issue_instances }

/-- `add_trace_frame` of the base graph (insert-if-absent by id). -/
def TraceGraph.add_trace_frame_entity (g : TraceGraph) (f : TraceFrame) : TraceGraph :=
  if (g.frame_by_id f.id).isSome then g
  else { g with trace_frames := f :: g.trace_frames }

/-- `add_trace_annotation` of the base graph (insert-if-absent by id). -/
def TraceGraph.add_trace_annot_entity (g : TraceGraph) (a : TraceFrameAnnot) : TraceGraph :=
  if (g.trace_annots.find? (fun x => x.id == a.id)).isSome then g
  else { g with trace_annots := a :: g.trace_annots }

/-- `add_issue_instance_fix_info` (insert-if-absent by instance id). -/
def TraceGraph.add_issue_instance_fix_info (g : TraceGraph) (iid : Nat)
    (fi : IssueInstanceFixInfo) : TraceGraph :=
  if (g.issue_instance_fix_info.find? (fun e => e.1 == iid)).isSome then g
  else { g with issue_instance_fix_info := (iid, fi) :: g.issue_instance_fix_info }

/-- `add_issue_instance_trace_frame_assoc` (set insert; updates both the
forward and the reverse index, which the model derives from the one
relation). -/
def TraceGraph.add_issue_instance_trace_frame_assoc_ids (g : TraceGraph)
    (iid fid : Nat) : TraceGraph :=
  if (iid, fid) ∈ g.issue_instance_trace_frame_assoc then g
  else { g with issue_instance_trace_frame_assoc :=
    (iid, fid) :: g.issue_instance_trace_frame_assoc }

/-- `add_issue_instance_shared_text_assoc` (set insert). -/
def TraceGraph.add_issue_instance_shared_text_assoc_ids (g : TraceGraph)
    (iid tid : Nat) : TraceGraph :=
  if (iid, tid) ∈ g.issue_instance_shared_text_assoc then g
  else { g with issue_instance_shared_text_assoc :=
    (iid, tid) :: g.issue_instance_shared_text_assoc }

/-- `add_trace_frame_leaf_assoc` (set insert of `(frame, leaf, depth)`). -/
def TraceGraph.add_trace_frame_leaf_assoc_ids (g : TraceGraph) (fid lid : Nat)
    (depth : Option Nat) : TraceGraph :=
  if (fid, lid, depth) ∈ g.trace_frame_leaf_assoc then g
  else { g with trace_frame_leaf_assoc := (fid, lid, depth) :: g.trace_frame_leaf_assoc }

/-- `add_trace_frame_annotation_trace_frame_assoc` (set insert). -/
def TraceGraph.add_trace_frame_annot_trace_frame_assoc_ids (g : TraceGraph)
    (aid fid : Nat) : TraceGraph :=
  if (aid, fid) ∈ g.trace_frame_annot_trace_frame_assoc then g
  else { g with trace_frame_annot_trace_frame_assoc :=
    (aid, fid) :: g.trace_frame_annot_trace_frame_assoc }

/-! ### The trimmer (`trimmed_trace_graph.py`)

`Trimmer` is the mutable state of a `TrimmedTraceGraph`: the output
graph being built plus `_visited_trace_frame_ids`.  The configuration
(`affected_files`, `affected_issues_only`) is passed separately.  Python
`while` loops over mutable worklists become fuel-indexed recursion: each
recursive call consumes one unit of fuel and exhaustion yields `none`. -/

/-- The trimming configuration given to `TrimmedTraceGraph.__init__`. -/
structure TrimConfig where
  affected_files : List String
  affected_issues_only : Bool
  deriving DecidableEq, Repr

/-- The state of a `TrimmedTraceGraph` under construction. -/
structure Trimmer where
  out : TraceGraph
  visited_trace_frame_ids : Finset Nat
  deriving DecidableEq

/-- The empty trimmer state. -/
def Trimmer.init : Trimmer := ⟨TraceGraph.empty, ∅⟩

/-- `_is_filename_prefixed_with`: Python `filename.startswith(p)` is the
sequence-prefix test on the characters. -/
def is_filename_prefixed_with (filename : String) (prefixes : List String) : Bool :=
  prefixes.any (fun p => p.data.isPrefixOf filename.data)

/-- `_populate_shared_text`: fetch the text from the source graph and add
it to the output if its id is not yet present. -/
def populate_shared_text_into (g : TraceGraph) (i : Nat) (og : TraceGraph) : TraceGraph :=
  match g.text_by_id i with
  | some t => if (og.text_by_id t.id).isSome then og else og.add_shared_text t
  | none => og

/-- The non-recursive tail of `_add_trace_frame`: copy the frame's
filename/caller/callee texts and all its leaf associations (adding each
leaf text not yet present). -/
def add_frame_extras (g : TraceGraph) (f : TraceFrame) (og : TraceGraph) : TraceGraph :=
  let og := populate_shared_text_into g f.filename_id og
  let og := populate_shared_text_into g f.caller_id og
  let og := populate_shared_text_into g f.callee_id og
  (g.leaf_assocs_of f.id).foldl (fun og (p : Nat × Option Nat) =>
    match g.text_by_id p.1 with
    | none => og
    | some leaf =>
      let og := if (og.text_by_id p.1).isSome then og else og.add_shared_text leaf
      og.add_trace_frame_leaf_assoc_ids f.id p.1 p.2) og

/-- The annotation/child-frame association loop of
`_add_trace_annotation`. -/
def add_annot_assocs (aid : Nat) (children : List TraceFrame) (og : TraceGraph) :
    TraceGraph :=
  children.foldl
    (fun og child => og.add_trace_frame_annot_trace_frame_assoc_ids aid child.id) og

mutual

/-- `_populate_trace`: worklist flood-fill of trace frames (the Python
list pops from the end, so the model's list head is the top of the
stack and the initial/extended batches are pushed reversed).  A frame
already in `_visited_trace_frame_ids` is skipped; otherwise it is added
(with annotations, texts and leaf associations) and its same-direction
successors not yet visited are pushed. -/
def populate_trace (g : TraceGraph) : Nat → List Nat → Trimmer → Option Trimmer
  | _, [], s => some s
  | 0, _ :: _, _ => none
  | Nat.succ fuel, tfId :: rest, s =>
    if tfId ∈ s.visited_trace_frame_ids then
      populate_trace g fuel rest s
    else
      match g.frame_by_id tfId with
      | none => populate_trace g fuel rest s
      | some frame =>
        match add_trace_frame g fuel frame s with
        | none => none
        | some s1 =>
          let s2 : Trimmer :=
            { s1 with visited_trace_frame_ids := insert tfId s1.visited_trace_frame_ids }
          let nexts := ((g.get_next_trace_frames frame).filter
            (fun nf => decide (nf.id ∉ s2.visited_trace_frame_ids))).map (fun nf => nf.id)
          populate_trace g fuel (nexts.reverse ++ rest) s2

/-- `_add_trace_frame`: copy one frame from `g` into the output together
with its annotations (and their sub-traces), its filename/caller/callee
texts, and all its leaf associations. -/
def add_trace_frame (g : TraceGraph) (fuel : Nat) (frame : TraceFrame) (s : Trimmer) :
    Option Trimmer :=
  match fuel with
  | 0 => none
  | Nat.succ fuel =>
    let s1 : Trimmer := { s with out := s.out.add_trace_frame_entity frame }
    match add_annots g fuel (g.get_condition_annots frame.id) s1 with
    | none => none
    | some s2 => some { s2 with out := add_frame_extras g frame s2.out }

/-- Iteration of `_add_trace_annotation` over the annotations of a frame. -/
def add_annots (g : TraceGraph) (fuel : Nat) :
    List TraceFrameAnnot → Trimmer → Option Trimmer
  | [], s => some s
  | ann :: rest, s =>
    match fuel with
    | 0 => none
    | Nat.succ fuel =>
      match add_trace_annot g fuel ann s with
      | none => none
      | some s1 => add_annots g fuel rest s1

/-- `_add_trace_annotation`: copy the annotation, associate its child
frames, then populate the child sub-traces. -/
def add_trace_annot (g : TraceGraph) (fuel : Nat) (ann : TraceFrameAnnot) (s : Trimmer) :
    Option Trimmer :=
  match fuel with
  | 0 => none
  | Nat.succ fuel =>
    let s1 : Trimmer := { s with out := s.out.add_trace_annot_entity ann }
    let children := g.get_annot_trace_frames ann.id
    let s2 : Trimmer := { s1 with out := add_annot_assocs ann.id children s1.out }
    populate_trace g fuel ((children.map (fun c => c.id)).reverse) s2

end

/-- `_get_sink_kinds` ∪ `_get_source_kinds` = `_get_instance_leaf_ids`:
the instance's own source/sink leaf-id set. -/
def instance_leaf_ids (g : TraceGraph) (iid : Nat) : Finset Nat :=
  ((g.get_issue_instance_shared_texts iid SharedTextKind.source).map (fun t => t.id)).toFinset ∪
  ((g.get_issue_instance_shared_texts iid SharedTextKind.sink).map (fun t => t.id)).toFinset

/-- The output-graph transformation of `_populate_issue` for a resolved
instance: copy the message/filename/callable texts, the instance itself,
its issue, its fix info and its shared-text associations. -/
def populate_issue_out (g : TraceGraph) (iid : Nat) (inst : IssueInstance)
    (og : TraceGraph) : TraceGraph :=
  let og := populate_shared_text_into g inst.message_id og
  let og := populate_shared_text_into g inst.filename_id og
  let og := populate_shared_text_into g inst.callable_id og
  let og := og.add_issue_instance inst
  let og := match g.issue_by_id inst.issue_id with
            | some iss => og.add_issue iss
            | none => og
  let og := match g.fix_info_of iid with
            | some fi => og.add_issue_instance_fix_info iid fi
            | none => og
  (g.instance_text_assoc_ids iid).foldl (fun og tid =>
    match g.text_by_id tid with
    | none => og
    | some t =>
      let og := if (og.text_by_id tid).isSome then og else og.add_shared_text t
      og.add_issue_instance_shared_text_assoc_ids iid tid) og

/-- `_populate_issue`: copy an instance, its issue, fix info, message /
filename / callable texts, and its shared-text associations. -/
def populate_issue (g : TraceGraph) (iid : Nat) (s : Trimmer) : Trimmer :=
  match g.instance_by_id iid with
  | none => s
  | some inst => { s with out := populate_issue_out g iid inst s.out }

/-- The per-condition body of the backward search: every instance
associated with the popped condition is a hit exactly when its own leaf
set intersects the leaves the condition is being visited from; on a hit
the instance is copied (if absent) and the instance/condition
association is recorded. -/
def process_condition_instances (g : TraceGraph) (condId : Nat) (leaves : Finset Nat)
    (s : Trimmer) : Trimmer :=
  (g.frame_issue_instances condId).foldl (fun s iid =>
    if instance_leaf_ids g iid ∩ leaves = ∅ then s
    else
      let s1 := if (s.out.instance_by_id iid).isSome then s else populate_issue g iid s
      { s1 with out := s1.out.add_issue_instance_trace_frame_assoc_ids iid condId }) s

/-- `_get_predecessor_frames`: predecessor frames paired with the leaf
set translated through each predecessor's `leaf_mapping`. -/
def get_predecessor_frames (g : TraceGraph) (leaves : Finset Nat) (f : TraceFrame) :
    List (TraceFrame × Finset Nat) :=
  (g.rev_map_frames f).map (fun p => (p, compute_prev_leaf_kinds leaves p.leaf_mapping))

/-- Enqueueing of predecessors: only those with a non-empty translated
leaf set are pushed (reversed, because Python appends then pops from the
end). -/
def search_push (preds : List (TraceFrame × Finset Nat))
    (que : List (TraceFrame × Finset Nat)) : List (TraceFrame × Finset Nat) :=
  (preds.filter (fun pr => decide (pr.2 ≠ ∅))).reverse ++ que

/-- Lookup in the `visited` map of the backward search. -/
def visited_lookup (v : List (Nat × Finset Nat)) (c : Nat) : Option (Finset Nat) :=
  (v.find? (fun e => e.1 == c)).map (fun e => e.2)

/-- `visited[cond_id].update(leaves)`: replace the recorded leaf set of
one condition. -/
def visited_update (v : List (Nat × Finset Nat)) (c : Nat) (ls : Finset Nat) :
    List (Nat × Finset Nat) :=
  v.map (fun e => if e.1 == c then (e.1, ls) else e)

/-- The `while que` loop of `_populate_issues_from_affected_conditions`.
A popped condition already visited is narrowed to its not-yet-recorded
leaves and skipped when none remain; otherwise the visited set grows,
hits are processed against the new leaves, and predecessors with a
non-empty translated leaf set are pushed. -/
def search_loop (g : TraceGraph) : Nat → List (TraceFrame × Finset Nat) →
    List (Nat × Finset Nat) → Trimmer → Option (List (Nat × Finset Nat) × Trimmer)
  | _, [], visited, s => some (visited, s)
  | 0, _ :: _, _, _ => none
  | Nat.succ fuel, (condition, leaves0) :: que, visited, s =>
    match visited_lookup visited condition.id with
    | some old =>
      if leaves0 \ old = ∅ then
        search_loop g fuel que visited s
      else
        let leaves := leaves0 \ old
        let visited1 := visited_update visited condition.id (old ∪ leaves)
        let s1 := process_condition_instances g condition.id leaves s
        search_loop g fuel
          (search_push (get_predecessor_frames g leaves condition) que) visited1 s1
    | none =>
      let visited1 := (condition.id, leaves0) :: visited
      let s1 := process_condition_instances g condition.id leaves0 s
      search_loop g fuel
        (search_push (get_predecessor_frames g leaves0 condition) que) visited1 s1

/-- The initial worklist of the backward search: each initial condition
paired with its incoming leaf set (reversed: Python pops from the end). -/
def initial_search_que (g : TraceGraph) (initial : List TraceFrame) :
    List (TraceFrame × Finset Nat) :=
  (initial.map (fun f => (f, g.get_incoming_leaf_kinds_of_frame f))).reverse

/-- The loop after the search: every visited condition is copied into the
output (`for frame_id in visited: self._add_trace_frame(...)`).  The
Python dict iterates in insertion order, so the newest-first model list
is reversed. -/
def add_visited_frames (g : TraceGraph) (fuel : Nat) :
    List (Nat × Finset Nat) → Trimmer → Option Trimmer
  | [], s => some s
  | (c, _) :: rest, s =>
    match g.frame_by_id c with
    | none => add_visited_frames g fuel rest s
    | some f =>
      match add_trace_frame g fuel f s with
      | none => none
      | some s1 => add_visited_frames g fuel rest s1

/-- `_populate_issues_from_affected_conditions`: run the backward search
from the initial conditions, then populate the traces leading out of the
initial conditions and copy every visited condition. -/
def populate_issues_from_affected_conditions (g : TraceGraph) (fuel : Nat)
    (initial : List TraceFrame) (s : Trimmer) : Option Trimmer :=
  match search_loop g fuel (initial_search_que g initial) [] s with
  | none => none
  | some (visited, s1) =>
    match populate_trace g fuel ((initial.map (fun c => c.id)).reverse) s1 with
    | none => none
    | some s2 => add_visited_frames g fuel visited.reverse s2

/-- One step of the first-hop loop of `_populate_issue_trace`: when the
frame resolves and matches the requested kind (`none` matches every
kind, like Python's `kind is None or kind == frame.kind`), record the
association and collect the frame id. -/
def issue_trace_fold_step (g : TraceGraph) (iid : Nat) (kind : Option TraceKind)
    (acc : Trimmer × List Nat) (fid : Nat) : Trimmer × List Nat :=
  match g.frame_by_id fid with
  | none => acc
  | some frame =>
    if kind.all (fun k => k == frame.kind) then
      ({ acc.1 with out :=
          acc.1.out.add_issue_instance_trace_frame_assoc_ids iid fid },
        acc.2 ++ [fid])
    else acc

/-- `_populate_issue_trace`: associate the instance with its first-hop
frames of the requested kind (all of them when `kind` is `none`) and
populate the corresponding traces. -/
def populate_issue_trace (g : TraceGraph) (fuel : Nat) (iid : Nat)
    (kind : Option TraceKind) (s : Trimmer) : Option Trimmer :=
  match g.instance_by_id iid with
  | none => some s
  | some _inst =>
    let step := (g.instance_tf_assoc_ids iid).foldl
      (issue_trace_fold_step g iid kind) (s, [])
    populate_trace g fuel step.2.reverse step.1

/-- `_populate_issue_and_traces`: copy the issue and then its complete
trace in both directions. -/
def populate_issue_and_traces (g : TraceGraph) (fuel : Nat) (iid : Nat) (s : Trimmer) :
    Option Trimmer :=
  populate_issue_trace g fuel iid none (populate_issue g iid s)

/-- The step-1 seed: instances whose filename is prefixed by one of the
affected files. -/
def affected_instance_ids (g : TraceGraph) (cfg : TrimConfig) : List Nat :=
  (g.issue_instances.filter (fun inst =>
    match g.get_text inst.filename_id with
    | some fn => is_filename_prefixed_with fn cfg.affected_files
    | none => false)).map (fun i => i.id)

/-- The loop of `_populate_affected_issues`. -/
def populate_affected_issues_loop (g : TraceGraph) (fuel : Nat) :
    List Nat → Trimmer → Option Trimmer
  | [], s => some s
  | iid :: rest, s =>
    if (s.out.instance_by_id iid).isSome then
      populate_affected_issues_loop g fuel rest s
    else
      match populate_issue_and_traces g fuel iid s with
      | none => none
      | some s1 => populate_affected_issues_loop g fuel rest s1

/-- The step-3 seed: trace frames located in an affected file. -/
def initial_trace_frames (g : TraceGraph) (cfg : TrimConfig) : List TraceFrame :=
  g.trace_frames.filter (fun f =>
    match g.get_text f.filename_id with
    | some fn => is_filename_prefixed_with fn cfg.affected_files
    | none => false)

/-- The first-hop frame ids of an instance whose frame (in `h`) has the
given kind; a first hop whose frame id does not resolve is a structural
fault in Python and is dropped here. -/
def first_hop_ids_of_kind (h : TraceGraph) (iid : Nat) (k : TraceKind) : List Nat :=
  (h.instance_tf_assoc_ids iid).filter (fun fid =>
    match h.frame_by_id fid with
    | some f => f.kind == k
    | none => false)

/-- One iteration of the directional-completeness repair (step 4): a
direction with no first hop in the trimmed graph is populated in full
from the source graph. -/
def repair_directions_step (g : TraceGraph) (fuel : Nat) (iid : Nat) (s : Trimmer) :
    Option Trimmer :=
  let fwd := first_hop_ids_of_kind s.out iid TraceKind.postcondition
  let bwd := first_hop_ids_of_kind s.out iid TraceKind.precondition
  match (if fwd.length == 0 then
            populate_issue_trace g fuel iid (some TraceKind.postcondition) s
          else some s) with
  | none => none
  | some s1 =>
    if bwd.length == 0 then
      populate_issue_trace g fuel iid (some TraceKind.precondition) s1
    else some s1

/-- The repair loop over the instances of the trimmed graph. -/
def repair_directions (g : TraceGraph) (fuel : Nat) :
    List Nat → Trimmer → Option Trimmer
  | [], s => some s
  | iid :: rest, s =>
    match repair_directions_step g fuel iid s with
    | none => none
    | some s1 => repair_directions g fuel rest s1

/-- The running-minimum update of `_get_min_leaf_depth`:
`if depth is not None and (min_depth is None or depth < min_depth)`. -/
def min_step (acc : Option Nat) (depth : Nat) : Option Nat :=
  match acc with
  | none => some depth
  | some m => if depth < m then some depth else some m

/-- `_get_min_leaf_depth`'s running minimum over the leaf associations of
the given first-hop frames, restricted to source/sink leaves with a
non-`None` trace length (`none` = no candidate seen). -/
def min_leaf_depth_fold (h : TraceGraph) (tf_ids : List Nat) : Option Nat :=
  tf_ids.foldl (fun acc fid =>
    (h.leaf_assocs_of fid).foldl (fun acc (p : Nat × Option Nat) =>
      match h.text_by_id p.1 with
      | some t =>
        if t.kind == SharedTextKind.source || t.kind == SharedTextKind.sink then
          match p.2 with
          | some depth => min_step acc depth
          | none => acc
        else acc
      | none => acc) acc) none

/-- `_get_min_leaf_depth`: the minimum, or `0` when no candidate exists. -/
def get_min_leaf_depth (h : TraceGraph) (tf_ids : List Nat) : Nat :=
  (min_leaf_depth_fold h tf_ids).getD 0

/-- `_get_min_depth_to_sources`: minimum over the POSTCONDITION first
hops. -/
def get_min_depth_to_sources (h : TraceGraph) (iid : Nat) : Nat :=
  get_min_leaf_depth h (first_hop_ids_of_kind h iid TraceKind.postcondition)

/-- `_get_min_depth_to_sinks`: minimum over the PRECONDITION first hops. -/
def get_min_depth_to_sinks (h : TraceGraph) (iid : Nat) : Nat :=
  get_min_leaf_depth h (first_hop_ids_of_kind h iid TraceKind.precondition)

/-- `_recompute_instance_properties`: reset the derived fields of every
instance of the trimmed graph from its current associations. -/
def recompute_instance_properties (h : TraceGraph) : TraceGraph :=
  { h with issue_instances := h.issue_instances.map (fun inst =>
      { inst with
        min_trace_length_to_sources := get_min_depth_to_sources h inst.id
        min_trace_length_to_sinks := get_min_depth_to_sinks h inst.id
        callable_count :=
          (h.issue_instances.filter (fun j => j.callable_id == inst.callable_id)).length }) }

/-- `populate_from_trace_graph`: steps 1 (seed by issue location), 3
(seed by frame location with the leaf-consistent backward search,
skipped when `affected_issues_only`), 4 (directional repair) and 5
(derived-metric recomputation). -/
def populate_from_trace_graph (fuel : Nat) (cfg : TrimConfig) (g : TraceGraph) :
    Option TraceGraph :=
  match populate_affected_issues_loop g fuel (affected_instance_ids g cfg) Trimmer.init with
  | none => none
  | some s1 =>
    match (if cfg.affected_issues_only then some s1
           else
             match populate_issues_from_affected_conditions g fuel
                 (initial_trace_frames g cfg) s1 with
             | none => none
             | some s2 =>
               repair_directions g fuel (s2.out.issue_instances.map (fun i => i.id)) s2) with
    | none => none
    | some s3 => some (recompute_instance_properties s3.out)

/-- The trimmed run paired with the source graph it read; the second
component witnesses that the source graph is passed read-only through
every phase (step 1 copies records, so the output owns its entities). -/
def populate_from_trace_graph_tracked (fuel : Nat) (cfg : TrimConfig) (g : TraceGraph) :
    Option (TraceGraph × TraceGraph) :=
  (populate_from_trace_graph fuel cfg g).map (fun out => (out, g))

/-! ### The bulk saver (`bulk_saver.py`)

Persisted items are opaque payloads (modelled as `Nat`); the
`PrimaryKeyGenerator` / `prepare` key translation and the physical
batched writes live in `models.py` / `db.py` (not among the shown
sources) and are irrelevant to the saving order and the draining of the
pending collections, which are modelled faithfully from
`bulk_saver.py`. -/

/-- The entity classes of `SAVING_CLASSES_ORDER`
(`TraceFrameAnnot` stands for the annotation class of the source). -/
inductive SavingClass where
  | SharedText
  | Issue
  | IssueInstanceFixInfo
  | IssueInstance
  | IssueInstanceSharedTextAssoc
  | TraceFrame
  | TraceFrameAnnot
  | IssueInstanceTraceFrameAssoc
  | TraceFrameLeafAssoc
  | TraceFrameAnnotTraceFrameAssoc
  deriving DecidableEq, Repr

/-- `SAVING_CLASSES_ORDER`: order is significant, objects are saved in
this order. -/
def SAVING_CLASSES_ORDER : List SavingClass :=
  [SavingClass.SharedText,
   SavingClass.Issue,
   SavingClass.IssueInstanceFixInfo,
   SavingClass.IssueInstance,
   SavingClass.IssueInstanceSharedTextAssoc,
   SavingClass.TraceFrame,
   SavingClass.IssueInstanceTraceFrameAssoc,
   SavingClass.TraceFrameAnnot,
   SavingClass.TraceFrameLeafAssoc,
   SavingClass.TraceFrameAnnotTraceFrameAssoc]

/-- `BulkSaver.saving`: one pending list per entity class. -/
structure BulkSaver where
  saving : SavingClass → List Nat

/-- `BulkSaver.add`: append an item to its class's pending list. -/
def BulkSaver.add (b : BulkSaver) (c : SavingClass) (x : Nat) : BulkSaver :=
  ⟨fun c2 => if c2 = c then b.saving c2 ++ [x] else b.saving c2⟩

/-- `consume(lst)`: yield `lst.pop()` until the list is empty — the
items in pop (reverse) order, leaving the drained list empty. -/
def consume (lst : List Nat) : List Nat :=
  lst.reverse

/-- The `saving_classes` filter of `save_all`: the classes of
`SAVING_CLASSES_ORDER` with a non-empty pending list. -/
def saving_classes_of (b : BulkSaver) : List SavingClass :=
  SAVING_CLASSES_ORDER.filter (fun c => (b.saving c).length != 0)

/-- `BulkSaver._save` for one class: the pending list is drained through
`consume` (so it is left empty) and the drained items are submitted. -/
def save_one (b : BulkSaver) (c : SavingClass) : BulkSaver × List Nat :=
  (⟨fun c2 => if c2 = c then [] else b.saving c2⟩, consume (b.saving c))

/-- `BulkSaver.save_all`: save every class with pending items, in
`SAVING_CLASSES_ORDER` order; returns the drained saver and the
submitted batches in saving order. -/
def save_all (b : BulkSaver) : BulkSaver × List (SavingClass × List Nat) :=
  (saving_classes_of b).foldl (fun acc c =>
    let r := save_one acc.1 c
    (r.1, acc.2 ++ [(c, r.2)])) (b, [])

/-- The sequence of classes `save_all` submits, in submission order. -/
def save_all_order (b : BulkSaver) : List SavingClass :=
  (save_all b).2.map (fun e => e.1)

/-! ### The decorators pinned by `tests/decorators_test.py`

`decorators.py` itself is not among the shown sources; the
keyboard-interrupt wrapper is modelled from the behaviour asserted by
the in-repo test `CatchKeyboardInterruptTest`: calling the wrapped
function that raises `KeyboardInterrupt` must NOT raise (the test fails
on an unexpected `KeyboardInterrupt`), while a raised `ValueError` must
propagate. -/

/-- The outcome of calling a Python operation: a value, a raised
`KeyboardInterrupt`, or another raised exception. -/
inductive PyResult (α : Type) where
  | ok (a : α)
  | keyboardInterrupt
  | otherExc (name : String)
  deriving DecidableEq, Repr

/-- `catch_keyboard_interrupt`, modelled from `CatchKeyboardInterruptTest`:
the wrapper catches `KeyboardInterrupt` (the wrapped call then returns no
value) and lets every other exception propagate unchanged. -/
def catch_keyboard_interrupt {α : Type} : PyResult α → PyResult (Option α)
  | PyResult.ok a => PyResult.ok (some a)
  | PyResult.keyboardInterrupt => PyResult.ok none
  | PyResult.otherExc e => PyResult.otherExc e

/-! ### Supporting lemmas for the bulk saver -/

/-- Every entity class occurs in `SAVING_CLASSES_ORDER`. -/
theorem mem_saving_classes_order (c : SavingClass) : c ∈ SAVING_CLASSES_ORDER := by
  cases c <;> simp [SAVING_CLASSES_ORDER]

theorem save_all_fold_order (l : List SavingClass) :
    ∀ (b : BulkSaver) (acc : List (SavingClass × List Nat)),
      ((l.foldl (fun acc c =>
          let r := save_one acc.1 c
          (r.1, acc.2 ++ [(c, r.2)])) (b, acc)).2).map (fun e => e.1) =
        acc.map (fun e => e.1) ++ l := by
  induction l with
  | nil => intro b acc; simp
  | cons d rest ih =>
    intro b acc
    simp only [List.foldl_cons]
    rw [ih]
    simp

theorem save_all_fold_drains (l : List SavingClass) :
    ∀ (b : BulkSaver) (acc : List (SavingClass × List Nat)),
      (∀ c, c ∉ l → b.saving c = []) →
      ∀ c, ((l.foldl (fun acc c =>
          let r := save_one acc.1 c
          (r.1, acc.2 ++ [(c, r.2)])) (b, acc)).1).saving c = [] := by
  induction l with
  | nil =>
    intro b acc h c
    exact h c (by simp)
  | cons d rest ih =>
    intro b acc h c
    simp only [List.foldl_cons]
    refine ih _ _ ?_ c
    intro c2 hc2
    by_cases hd : c2 = d
    · subst hd; simp [save_one]
    · have : c2 ∉ d :: rest := by
        intro hmem
        rcases List.mem_cons.mp hmem with h1 | h1
        · exact hd h1
        · exact hc2 h1
      have := h c2 this
      simpa [save_one, hd] using this

/-- After `save_all`, every per-class pending list is empty. -/
theorem save_all_result_empty (b : BulkSaver) (c : SavingClass) :
    ((save_all b).1).saving c = [] := by
  unfold save_all
  refine save_all_fold_drains (saving_classes_of b) b [] ?_ c
  intro c2 hc2
  have hmem := mem_saving_classes_order c2
  have hnot : ¬ ((b.saving c2).length != 0) = true := by
    intro hpred
    exact hc2 (List.mem_filter.mpr ⟨hmem, hpred⟩)
  have : (b.saving c2).length = 0 := by
    by_contra hlen
    exact hnot (by simpa using hlen)
  exact List.length_eq_zero.mp this

/-- C7 (amended part, helper): `save_all` submits exactly the classes
with pending items, in the relative order of `SAVING_CLASSES_ORDER`. -/
theorem save_all_order_spec (b : BulkSaver) :
    save_all_order b =
      SAVING_CLASSES_ORDER.filter (fun c => (b.saving c).length != 0) := by
  unfold save_all_order save_all
  rw [save_all_fold_order]
  rfl

/-- C7 — counterexample.  With every class pending, `save_all` submits
`IssueInstanceFixInfo` before `IssueInstance`, not after it as the claim
orders them: the claimed sequence (texts, issues, instances, fix-info,
…) differs from the sequence actually submitted. -/
theorem save_all_order_fix_info_before_instances :
    save_all_order ⟨fun _ => [0]⟩ ≠
      [SavingClass.SharedText,
       SavingClass.Issue,
       SavingClass.IssueInstance,
       SavingClass.IssueInstanceFixInfo,
       SavingClass.IssueInstanceSharedTextAssoc,
       SavingClass.TraceFrame,
       SavingClass.IssueInstanceTraceFrameAssoc,
       SavingClass.TraceFrameAnnot,
       SavingClass.TraceFrameLeafAssoc,
       SavingClass.TraceFrameAnnotTraceFrameAssoc] ∧
    (save_all_order ⟨fun _ => [0]⟩).indexOf SavingClass.IssueInstanceFixInfo <
      (save_all_order ⟨fun _ => [0]⟩).indexOf SavingClass.IssueInstance := by
  constructor
  · decide
  · decide

/-- C7 — amended: `BulkSaver.save_all` persists the pending entity
collections in the fixed dependency order of `SAVING_CLASSES_ORDER`
(shared texts, issues, fix-info, issue instances, instance-to-text
associations, trace frames, instance-to-frame associations, annotations,
leaf associations, annotation-to-frame associations): the submitted
sequence is exactly the classes with pending items, filtered out of that
order, hence a subsequence of it. -/
theorem save_all_saves_pending_in_fixed_order (b : BulkSaver) :
    save_all_order b =
      SAVING_CLASSES_ORDER.filter (fun c => (b.saving c).length != 0) ∧
    (save_all_order b).Sublist SAVING_CLASSES_ORDER := by
  refine ⟨save_all_order_spec b, ?_⟩
  rw [save_all_order_spec b]
  exact List.filter_sublist _

/-- A saver with no non-empty pending class submits nothing. -/
theorem save_all_of_drained (s : BulkSaver) (h : saving_classes_of s = []) :
    (save_all s).2 = [] := by
  unfold save_all
  rw [h]
  rfl

/-- C9: after `save_all` returns, every pending per-class collection of
the saver is empty, and a second `save_all` on the drained saver submits
nothing. -/
theorem save_all_drains_all_pending (b : BulkSaver) (c : SavingClass) :
    ((save_all b).1).saving c = [] ∧ (save_all (save_all b).1).2 = [] := by
  refine ⟨save_all_result_empty b c, ?_⟩
  refine save_all_of_drained _ ?_
  refine List.filter_eq_nil_iff.mpr ?_
  intro c2 _
  simp [save_all_result_empty b c2]

/-- C8 — counterexample.  The wrapped operation that raises
`KeyboardInterrupt` does not re-raise it (the wrapper returns normally),
and a raised `ValueError` propagates to the caller — the opposite of the
claim on both sides. -/
theorem catch_keyboard_interrupt_does_not_propagate_interrupt :
    catch_keyboard_interrupt (PyResult.keyboardInterrupt : PyResult Nat) ≠
      PyResult.keyboardInterrupt ∧
    catch_keyboard_interrupt (PyResult.otherExc "ValueError" : PyResult Nat) =
      PyResult.otherExc "ValueError" := by
  constructor
  · intro h
    exact PyResult.noConfusion h
  · rfl

/-- C8 — amended: `catch_keyboard_interrupt` catches a raised
`KeyboardInterrupt` (the call returns without a value instead of
re-raising), while any other exception raised by the wrapped operation
propagates to the caller unchanged; a normal result is passed through. -/
theorem catch_keyboard_interrupt_spec :
    (∀ a : Nat, catch_keyboard_interrupt (PyResult.ok a) = PyResult.ok (some a)) ∧
    catch_keyboard_interrupt (PyResult.keyboardInterrupt : PyResult Nat) =
      PyResult.ok none ∧
    (∀ e : String,
      catch_keyboard_interrupt (PyResult.otherExc e : PyResult Nat) =
        PyResult.otherExc e) := by
  exact ⟨fun _ => rfl, rfl, fun _ => rfl⟩

/-! ### C6: the empty file filter yields the empty output graph -/

theorem affected_instance_ids_nil (g : TraceGraph) (aio : Bool) :
    affected_instance_ids g ⟨[], aio⟩ = [] := by
  unfold affected_instance_ids
  have : (g.issue_instances.filter (fun inst =>
      match g.get_text inst.filename_id with
      | some fn => is_filename_prefixed_with fn ([] : List String)
      | none => false)) = [] := by
    refine List.filter_eq_nil_iff.mpr ?_
    intro inst _
    cases hgt : g.get_text inst.filename_id <;>
      simp [hgt, is_filename_prefixed_with]
  rw [this]
  rfl

theorem initial_trace_frames_nil (g : TraceGraph) (aio : Bool) :
    initial_trace_frames g ⟨[], aio⟩ = [] := by
  unfold initial_trace_frames
  refine List.filter_eq_nil_iff.mpr ?_
  intro f _
  cases hgt : g.get_text f.filename_id <;>
    simp [hgt, is_filename_prefixed_with]

/-- C6: for every source graph (and either setting of
`affected_issues_only`), trimming with an empty `affected_files` list
completes and produces the empty output graph — zero issues, zero issue
instances, zero trace frames. -/
theorem populate_empty_filter_yields_empty_graph (g : TraceGraph) (fuel : Nat)
    (aio : Bool) :
    populate_from_trace_graph fuel ⟨[], aio⟩ g = some TraceGraph.empty := by
  unfold populate_from_trace_graph
  rw [affected_instance_ids_nil g aio, initial_trace_frames_nil g aio]
  cases aio <;> cases fuel <;> rfl

/-! ### C10: an empty-string prefix is a full-universe filter -/

/-- C10: when `affected_files` contains the empty string, the prefix test
accepts every filename, so the step-1 seed is every issue instance of
the source graph and the step-3 frontier is every trace frame (the
well-formedness hypotheses exclude the structural faults on which the
Python code would raise instead of completing). -/
theorem empty_prefix_is_full_universe_filter (g : TraceGraph) (cfg : TrimConfig)
    (fn : String) (hmem : "" ∈ cfg.affected_files)
    (hinst : ∀ i ∈ g.issue_instances, (g.get_text i.filename_id).isSome)
    (hfr : ∀ f ∈ g.trace_frames, (g.get_text f.filename_id).isSome) :
    is_filename_prefixed_with fn cfg.affected_files = true ∧
    affected_instance_ids g cfg = g.issue_instances.map (fun i => i.id) ∧
    initial_trace_frames g cfg = g.trace_frames := by
  have hacc : ∀ s : String, is_filename_prefixed_with s cfg.affected_files = true := by
    intro s
    unfold is_filename_prefixed_with
    refine List.any_eq_true.mpr ⟨"", hmem, ?_⟩
    show "".data.isPrefixOf s.data = true
    have h0 : "".data = [] := by simp
    rw [h0]
    cases s.data <;> rfl
  refine ⟨hacc fn, ?_, ?_⟩
  · unfold affected_instance_ids
    have : (g.issue_instances.filter (fun inst =>
        match g.get_text inst.filename_id with
        | some s => is_filename_prefixed_with s cfg.affected_files
        | none => false)) = g.issue_instances := by
      refine List.filter_eq_self.mpr ?_
      intro inst hi
      have := hinst inst hi
      cases hgt : g.get_text inst.filename_id with
      | none => rw [hgt] at this; simp at this
      | some s => simp [hgt, hacc s]
    rw [this]
  · unfold initial_trace_frames
    refine List.filter_eq_self.mpr ?_
    intro f hf
    have := hfr f hf
    cases hgt : g.get_text f.filename_id with
    | none => rw [hgt] at this; simp at this
    | some s => simp [hgt, hacc s]

/-- The witness graph used to instantiate theorems with hypotheses: one
instance with a resolvable filename, one postcondition first-hop frame
with a source leaf at depth 2 and a sink leaf at depth 1. -/
def gW : TraceGraph :=
  { shared_texts := [⟨1, "/a/b.py", SharedTextKind.filename⟩,
      ⟨2, "msg", SharedTextKind.message⟩, ⟨3, "foo", SharedTextKind.callable⟩,
      ⟨10, "L1", SharedTextKind.source⟩, ⟨11, "S1", SharedTextKind.sink⟩]
    issues := [⟨100, 5001⟩]
    issue_instances := [⟨200, 100, 1, 3, 2, 9, 9, 9⟩]
    trace_frames := [⟨300, TraceKind.postcondition, 3, "result", 10, "leaf", 1, []⟩]
    trace_annots := []
    issue_instance_fix_info := []
    issue_instance_trace_frame_assoc := [(200, 300)]
    issue_instance_shared_text_assoc := [(200, 10), (200, 11), (200, 2)]
    trace_frame_leaf_assoc := [(300, 10, some 2), (300, 11, some 1)]
    trace_frame_annot_trace_frame_assoc := [] }

/-- C10 — witness: on a concrete graph with an empty-string prefix, the
theorem applies and both seed sets are the full universes. -/
theorem empty_prefix_is_full_universe_filter_witness :
    affected_instance_ids gW ⟨[""], false⟩ = [200] ∧
    initial_trace_frames gW ⟨[""], false⟩ = gW.trace_frames := by
  have h := empty_prefix_is_full_universe_filter gW ⟨[""], false⟩ "/a/b.py"
    (by decide) (by decide) (by decide)
  exact ⟨by rw [h.2.1]; rfl, h.2.2⟩

/-! ### C4: recomputation of the minimum trace lengths -/

/-- The trace length a leaf association contributes to
`_get_min_leaf_depth`: its depth when the leaf resolves to a SOURCE or
SINK text and the depth is not `None`, nothing otherwise. -/
def source_sink_depth (h : TraceGraph) (p : Nat × Option Nat) : Option Nat :=
  match h.text_by_id p.1 with
  | some t =>
    if t.kind == SharedTextKind.source || t.kind == SharedTextKind.sink then p.2
    else none
  | none => none

/-- All depth candidates of a set of first-hop frames: the non-`None`
trace lengths of their leaf associations whose leaf is a SOURCE or SINK
text. -/
def depth_candidates (h : TraceGraph) (tf_ids : List Nat) : List Nat :=
  tf_ids.flatMap (fun fid => (h.leaf_assocs_of fid).filterMap (source_sink_depth h))

/-- The claim's reading of the same quantity: only SOURCE leaves count. -/
def source_only_depth_candidates (h : TraceGraph) (tf_ids : List Nat) : List Nat :=
  tf_ids.flatMap (fun fid => (h.leaf_assocs_of fid).filterMap (fun p =>
    match h.text_by_id p.1 with
    | some t => if t.kind == SharedTextKind.source then p.2 else none
    | none => none))

theorem foldl_filterMap_option {α β γ : Type} (f : α → Option β) (g : γ → β → γ) :
    ∀ (l : List α) (init : γ),
      (l.filterMap f).foldl g init =
        l.foldl (fun acc x => match f x with | some b => g acc b | none => acc) init := by
  intro l
  induction l with
  | nil => intro init; rfl
  | cons x xs ih =>
    intro init
    cases hf : f x <;> simp [List.filterMap_cons, hf, ih]

theorem foldl_min_step_some (xs : List Nat) :
    ∀ a : Nat, xs.foldl min_step (some a) = some (xs.foldl Nat.min a) := by
  induction xs with
  | nil => intro a; rfl
  | cons d rest ih =>
    intro a
    have hstep : min_step (some a) d = some (Nat.min a d) := by
      unfold min_step
      by_cases h : d < a
      · simp [h, Nat.min_def, Nat.not_le.mpr h]
      · have : a ≤ d := Nat.not_lt.mp h
        simp [h, Nat.min_def, this]
    simp only [List.foldl_cons, hstep, ih]

theorem foldl_min_step_eq_min? (l : List Nat) :
    l.foldl min_step none = l.min? := by
  cases l with
  | nil => rfl
  | cons d rest =>
    show rest.foldl min_step (min_step none d) = (d :: rest).min?
    have h0 : min_step none d = some d := rfl
    rw [h0, foldl_min_step_some]
    rfl

/-- `_get_min_leaf_depth`'s running minimum is exactly the minimum of the
depth candidates. -/
theorem min_leaf_depth_fold_eq_min? (h : TraceGraph) (tf_ids : List Nat) :
    min_leaf_depth_fold h tf_ids = (depth_candidates h tf_ids).min? := by
  rw [← foldl_min_step_eq_min?]
  unfold min_leaf_depth_fold depth_candidates
  generalize hacc : (none : Option Nat) = acc
  clear hacc
  induction tf_ids generalizing acc with
  | nil => rfl
  | cons fid rest ih =>
    simp only [List.foldl_cons, List.flatMap_cons, List.foldl_append]
    rw [← ih]
    congr 1
    rw [foldl_filterMap_option (source_sink_depth h) min_step]
    refine List.foldl_ext _ _ acc ?_
    intro a p _
    unfold source_sink_depth
    cases ht : h.text_by_id p.1 with
    | none => rfl
    | some t =>
      dsimp only
      by_cases hk : (t.kind == SharedTextKind.source || t.kind == SharedTextKind.sink) = true
      · rw [hk]
        cases p.2 <;> rfl
      · have hk2 : (t.kind == SharedTextKind.source || t.kind == SharedTextKind.sink) = false := by
          simpa using hk
        rw [hk2]
        rfl

theorem recompute_preserves_first_hops (h : TraceGraph) (iid : Nat) (k : TraceKind) :
    first_hop_ids_of_kind (recompute_instance_properties h) iid k =
      first_hop_ids_of_kind h iid k := rfl

theorem recompute_preserves_depth_candidates (h : TraceGraph) (l : List Nat) :
    depth_candidates (recompute_instance_properties h) l = depth_candidates h l := rfl

/-- Every completed trimming run ends with step 5: the output graph is
the recomputation of some intermediate state. -/
theorem populate_out_is_recompute (fuel : Nat) (cfg : TrimConfig) (g out : TraceGraph)
    (hrun : populate_from_trace_graph fuel cfg g = some out) :
    ∃ h3 : TraceGraph, out = recompute_instance_properties h3 := by
  unfold populate_from_trace_graph at hrun
  split at hrun
  · exact absurd hrun (by simp)
  · split at hrun
    · exact absurd hrun (by simp)
    · rename_i s3 heq3
      exact ⟨s3.out, (Option.some.inj hrun).symm⟩

/-- C4 — amended: after trimming, for every issue instance of the output
graph, `min_trace_length_to_sources` equals the minimum trace_length over
the leaf associations of its POSTCONDITION first-hop frames whose leaf is
a SharedText of kind SOURCE **or SINK** and whose trace length is not
`None` (and 0 when no such association exists);
`min_trace_length_to_sinks` is the same minimum over the PRECONDITION
first-hop frames. -/
theorem min_trace_lengths_recomputed (fuel : Nat) (cfg : TrimConfig)
    (g out : TraceGraph) (hrun : populate_from_trace_graph fuel cfg g = some out) :
    ∀ inst ∈ out.issue_instances,
      inst.min_trace_length_to_sources =
        ((depth_candidates out
          (first_hop_ids_of_kind out inst.id TraceKind.postcondition)).min?).getD 0 ∧
      inst.min_trace_length_to_sinks =
        ((depth_candidates out
          (first_hop_ids_of_kind out inst.id TraceKind.precondition)).min?).getD 0 := by
  obtain ⟨h3, hout⟩ := populate_out_is_recompute fuel cfg g out hrun
  intro inst hmem
  rw [hout] at hmem
  unfold recompute_instance_properties at hmem
  simp only [List.mem_map] at hmem
  obtain ⟨inst0, _hmem0, hEq⟩ := hmem
  subst hEq
  subst hout
  refine ⟨?_, ?_⟩
  · show get_min_depth_to_sources h3 inst0.id = _
    rw [recompute_preserves_depth_candidates, recompute_preserves_first_hops]
    unfold get_min_depth_to_sources get_min_leaf_depth
    rw [min_leaf_depth_fold_eq_min?]
  · show get_min_depth_to_sinks h3 inst0.id = _
    rw [recompute_preserves_depth_candidates, recompute_preserves_first_hops]
    unfold get_min_depth_to_sinks get_min_leaf_depth
    rw [min_leaf_depth_fold_eq_min?]

/-- C4 — witness: on the concrete graph `gW` the trimmed instance's
recomputed minima agree with the candidate minima of the theorem. -/
theorem min_trace_lengths_recomputed_witness :
    ∃ out, populate_from_trace_graph 50 ⟨["/a/"], false⟩ gW = some out ∧
      ∀ inst ∈ out.issue_instances,
        inst.min_trace_length_to_sources =
          ((depth_candidates out
            (first_hop_ids_of_kind out inst.id TraceKind.postcondition)).min?).getD 0 := by
  match hrun : populate_from_trace_graph 50 ⟨["/a/"], false⟩ gW with
  | none => exact absurd hrun (by decide)
  | some out =>
    exact ⟨out, rfl, fun inst hmem =>
      (min_trace_lengths_recomputed 50 ⟨["/a/"], false⟩ gW out hrun inst hmem).1⟩

/-- C4 — counterexample.  On `gW` the only POSTCONDITION first hop
carries a SOURCE leaf at depth 2 and a SINK leaf at depth 1; the code
recomputes `min_trace_length_to_sources = 1` (sink leaves count), while
the claim's SOURCE-only minimum is 2. -/
theorem min_to_sources_counts_sink_leaves :
    (populate_from_trace_graph 50 ⟨["/a/"], false⟩ gW).map
      (fun o => o.issue_instances.map (fun i =>
        (i.min_trace_length_to_sources,
         ((source_only_depth_candidates o
            (first_hop_ids_of_kind o i.id TraceKind.postcondition)).min?).getD 0)))
      = some [(1, 2)] ∧ (1 : Nat) ≠ 2 := by
  constructor
  · decide
  · decide

/-! ### Field-preservation lemmas for the graph insert primitives

Each primitive touches exactly one collection; the three collections the
correctness arguments track (issue instances, instance/frame
associations, trace frames) are untouched by all the others. -/

theorem populate_shared_text_into_fields (g : TraceGraph) (i : Nat) (og : TraceGraph) :
    (populate_shared_text_into g i og).issue_instances = og.issue_instances ∧
    (populate_shared_text_into g i og).issue_instance_trace_frame_assoc =
      og.issue_instance_trace_frame_assoc ∧
    (populate_shared_text_into g i og).trace_frames = og.trace_frames := by
  unfold populate_shared_text_into TraceGraph.add_shared_text
  split
  · split <;> exact ⟨rfl, rfl, rfl⟩
  · exact ⟨rfl, rfl, rfl⟩

theorem add_shared_text_fields (og : TraceGraph) (t : SharedText) :
    (og.add_shared_text t).issue_instances = og.issue_instances ∧
    (og.add_shared_text t).issue_instance_trace_frame_assoc =
      og.issue_instance_trace_frame_assoc ∧
    (og.add_shared_text t).trace_frames = og.trace_frames := by
  unfold TraceGraph.add_shared_text
  split <;> exact ⟨rfl, rfl, rfl⟩

theorem add_issue_fields (og : TraceGraph) (i : Issue) :
    (og.add_issue i).issue_instances = og.issue_instances ∧
    (og.add_issue i).issue_instance_trace_frame_assoc =
      og.issue_instance_trace_frame_assoc ∧
    (og.add_issue i).trace_frames = og.trace_frames := by
  unfold TraceGraph.add_issue
  split <;> exact ⟨rfl, rfl, rfl⟩

theorem add_fix_info_fields (og : TraceGraph) (iid : Nat) (fi : IssueInstanceFixInfo) :
    (og.add_issue_instance_fix_info iid fi).issue_instances = og.issue_instances ∧
    (og.add_issue_instance_fix_info iid fi).issue_instance_trace_frame_assoc =
      og.issue_instance_trace_frame_assoc ∧
    (og.add_issue_instance_fix_info iid fi).trace_frames = og.trace_frames := by
  unfold TraceGraph.add_issue_instance_fix_info
  split <;> exact ⟨rfl, rfl, rfl⟩

theorem add_text_assoc_fields (og : TraceGraph) (iid tid : Nat) :
    (og.add_issue_instance_shared_text_assoc_ids iid tid).issue_instances =
      og.issue_instances ∧
    (og.add_issue_instance_shared_text_assoc_ids iid tid).issue_instance_trace_frame_assoc =
      og.issue_instance_trace_frame_assoc ∧
    (og.add_issue_instance_shared_text_assoc_ids iid tid).trace_frames = og.trace_frames := by
  unfold TraceGraph.add_issue_instance_shared_text_assoc_ids
  split <;> exact ⟨rfl, rfl, rfl⟩

theorem add_leaf_assoc_fields (og : TraceGraph) (fid lid : Nat) (d : Option Nat) :
    (og.add_trace_frame_leaf_assoc_ids fid lid d).issue_instances = og.issue_instances ∧
    (og.add_trace_frame_leaf_assoc_ids fid lid d).issue_instance_trace_frame_assoc =
      og.issue_instance_trace_frame_assoc ∧
    (og.add_trace_frame_leaf_assoc_ids fid lid d).trace_frames = og.trace_frames := by
  unfold TraceGraph.add_trace_frame_leaf_assoc_ids
  split <;> exact ⟨rfl, rfl, rfl⟩

theorem add_annot_assoc_fields (og : TraceGraph) (aid fid : Nat) :
    (og.add_trace_frame_annot_trace_frame_assoc_ids aid fid).issue_instances =
      og.issue_instances ∧
    (og.add_trace_frame_annot_trace_frame_assoc_ids aid fid).issue_instance_trace_frame_assoc =
      og.issue_instance_trace_frame_assoc ∧
    (og.add_trace_frame_annot_trace_frame_assoc_ids aid fid).trace_frames =
      og.trace_frames := by
  unfold TraceGraph.add_trace_frame_annot_trace_frame_assoc_ids
  split <;> exact ⟨rfl, rfl, rfl⟩

theorem add_annot_entity_fields (og : TraceGraph) (a : TraceFrameAnnot) :
    (og.add_trace_annot_entity a).issue_instances = og.issue_instances ∧
    (og.add_trace_annot_entity a).issue_instance_trace_frame_assoc =
      og.issue_instance_trace_frame_assoc ∧
    (og.add_trace_annot_entity a).trace_frames = og.trace_frames := by
  unfold TraceGraph.add_trace_annot_entity
  split <;> exact ⟨rfl, rfl, rfl⟩

theorem add_issue_instance_fields (og : TraceGraph) (i : IssueInstance) :
    (og.add_issue_instance i).issue_instance_trace_frame_assoc =
      og.issue_instance_trace_frame_assoc ∧
    (og.add_issue_instance i).trace_frames = og.trace_frames := by
  unfold TraceGraph.add_issue_instance
  split <;> exact ⟨rfl, rfl⟩

theorem add_issue_instance_mem (og : TraceGraph) (i : IssueInstance) :
    ∀ j ∈ (og.add_issue_instance i).issue_instances,
      j = i ∨ j ∈ og.issue_instances := by
  unfold TraceGraph.add_issue_instance
  split
  · intro j hj; exact Or.inr hj
  · intro j hj
    rcases List.mem_cons.mp hj with h | h
    · exact Or.inl h
    · exact Or.inr h

theorem add_issue_instance_mono (og : TraceGraph) (i : IssueInstance) :
    ∀ j ∈ og.issue_instances, j ∈ (og.add_issue_instance i).issue_instances := by
  unfold TraceGraph.add_issue_instance
  split
  · intro j hj; exact hj
  · intro j hj; exact List.mem_cons_of_mem _ hj

theorem add_tf_assoc_fields (og : TraceGraph) (iid fid : Nat) :
    (og.add_issue_instance_trace_frame_assoc_ids iid fid).issue_instances =
      og.issue_instances ∧
    (og.add_issue_instance_trace_frame_assoc_ids iid fid).trace_frames =
      og.trace_frames := by
  unfold TraceGraph.add_issue_instance_trace_frame_assoc_ids
  split <;> exact ⟨rfl, rfl⟩

theorem add_tf_assoc_mem (og : TraceGraph) (iid fid : Nat) :
    ∀ a ∈ (og.add_issue_instance_trace_frame_assoc_ids iid
        fid).issue_instance_trace_frame_assoc,
      a = (iid, fid) ∨ a ∈ og.issue_instance_trace_frame_assoc := by
  unfold TraceGraph.add_issue_instance_trace_frame_assoc_ids
  split
  · intro a ha; exact Or.inr ha
  · intro a ha
    rcases List.mem_cons.mp ha with h | h
    · exact Or.inl h
    · exact Or.inr h

theorem add_tf_assoc_mono (og : TraceGraph) (iid fid : Nat) :
    ∀ a ∈ og.issue_instance_trace_frame_assoc,
      a ∈ (og.add_issue_instance_trace_frame_assoc_ids iid
        fid).issue_instance_trace_frame_assoc := by
  unfold TraceGraph.add_issue_instance_trace_frame_assoc_ids
  split
  · intro a ha; exact ha
  · intro a ha; exact List.mem_cons_of_mem _ ha

theorem add_tf_assoc_self (og : TraceGraph) (iid fid : Nat) :
    (iid, fid) ∈ (og.add_issue_instance_trace_frame_assoc_ids iid
      fid).issue_instance_trace_frame_assoc := by
  unfold TraceGraph.add_issue_instance_trace_frame_assoc_ids
  split
  · rename_i h; exact h
  · exact List.mem_cons_self _ _

theorem add_frame_entity_fields (og : TraceGraph) (f : TraceFrame) :
    (og.add_trace_frame_entity f).issue_instances = og.issue_instances ∧
    (og.add_trace_frame_entity f).issue_instance_trace_frame_assoc =
      og.issue_instance_trace_frame_assoc := by
  unfold TraceGraph.add_trace_frame_entity
  split <;> exact ⟨rfl, rfl⟩

theorem add_frame_entity_stable (og : TraceGraph) (f : TraceFrame) (i : Nat)
    (fr : TraceFrame) (h : og.frame_by_id i = some fr) :
    (og.add_trace_frame_entity f).frame_by_id i = some fr := by
  unfold TraceGraph.add_trace_frame_entity
  split
  · exact h
  · rename_i hnot
    unfold TraceGraph.frame_by_id at h ⊢
    show ((f :: og.trace_frames).find? (fun x => x.id == i)) = some fr
    rw [List.find?_cons]
    cases hpf : (f.id == i) with
    | true =>
      exfalso
      have hi : f.id = i := by simpa using hpf
      apply hnot
      rw [show og.frame_by_id f.id = some fr from hi ▸ h]
      rfl
    | false => simpa using h

theorem add_frame_entity_mono (og : TraceGraph) (f : TraceFrame) :
    ∀ fr ∈ og.trace_frames, fr ∈ (og.add_trace_frame_entity f).trace_frames := by
  unfold TraceGraph.add_trace_frame_entity
  split
  · intro fr h; exact h
  · intro fr h; exact List.mem_cons_of_mem _ h

theorem add_frame_entity_mem (og : TraceGraph) (f : TraceFrame) :
    ∀ fr ∈ (og.add_trace_frame_entity f).trace_frames,
      fr = f ∨ fr ∈ og.trace_frames := by
  unfold TraceGraph.add_trace_frame_entity
  split
  · intro fr h; exact Or.inr h
  · intro fr h
    rcases List.mem_cons.mp h with h1 | h1
    · exact Or.inl h1
    · exact Or.inr h1

theorem add_frame_entity_backs (og : TraceGraph) (f : TraceFrame) :
    ∃ fr ∈ (og.add_trace_frame_entity f).trace_frames, fr.id = f.id := by
  unfold TraceGraph.add_trace_frame_entity
  split
  · rename_i hsome
    unfold TraceGraph.frame_by_id at hsome
    obtain ⟨fr, hfr⟩ := Option.isSome_iff_exists.mp hsome
    refine ⟨fr, List.mem_of_find?_eq_some hfr, ?_⟩
    have := List.find?_some hfr
    simpa using this
  · exact ⟨f, List.mem_cons_self _ _, rfl⟩

theorem frame_by_id_id (g : TraceGraph) (i : Nat) (f : TraceFrame)
    (h : g.frame_by_id i = some f) : f.id = i := by
  unfold TraceGraph.frame_by_id at h
  have := List.find?_some h
  simpa using this

theorem frame_by_id_mem (g : TraceGraph) (i : Nat) (f : TraceFrame)
    (h : g.frame_by_id i = some f) : f ∈ g.trace_frames := by
  unfold TraceGraph.frame_by_id at h
  exact List.mem_of_find?_eq_some h

theorem instance_by_id_id (g : TraceGraph) (i : Nat) (x : IssueInstance)
    (h : g.instance_by_id i = some x) : x.id = i := by
  unfold TraceGraph.instance_by_id at h
  have := List.find?_some h
  simpa using this

theorem instance_by_id_mem (g : TraceGraph) (i : Nat) (x : IssueInstance)
    (h : g.instance_by_id i = some x) : x ∈ g.issue_instances := by
  unfold TraceGraph.instance_by_id at h
  exact List.mem_of_find?_eq_some h

theorem frame_by_id_congr (h h2 : TraceGraph) (heq : h.trace_frames = h2.trace_frames)
    (i : Nat) : h.frame_by_id i = h2.frame_by_id i := by
  unfold TraceGraph.frame_by_id
  rw [heq]

/-! ### The trace-copy trio preserves the tracked collections

`TrioStep g s s'` records what one (completed) call of `_populate_trace`
/ `_add_trace_frame` / `_add_trace_annotation` can and cannot change:
the issue instances and instance/frame associations are untouched, trace
frames and the visited set only grow, existing frame lookups are stable,
and the two structural invariants (every copied frame is the source
graph's frame of its id; every visited id is backed by a copied frame)
are preserved. -/

/-- Every frame of the trimmed graph is the source graph's frame of the
same id. -/
def FramesCanonical (g : TraceGraph) (s : Trimmer) : Prop :=
  ∀ fr ∈ s.out.trace_frames, g.frame_by_id fr.id = some fr

/-- Every visited trace-frame id has its frame copied into the output. -/
def VisitedBacked (s : Trimmer) : Prop :=
  ∀ i ∈ s.visited_trace_frame_ids, ∃ fr ∈ s.out.trace_frames, fr.id = i

structure TrioStep (g : TraceGraph) (s s' : Trimmer) : Prop where
  inst_eq : s'.out.issue_instances = s.out.issue_instances
  assoc_eq : s'.out.issue_instance_trace_frame_assoc =
    s.out.issue_instance_trace_frame_assoc
  frame_stable : ∀ i f, s.out.frame_by_id i = some f → s'.out.frame_by_id i = some f
  frames_mono : ∀ fr, fr ∈ s.out.trace_frames → fr ∈ s'.out.trace_frames
  visited_mono : ∀ i ∈ s.visited_trace_frame_ids, i ∈ s'.visited_trace_frame_ids
  canonical : FramesCanonical g s → FramesCanonical g s'
  backed : VisitedBacked s → VisitedBacked s'

theorem trio_step_refl (g : TraceGraph) (s : Trimmer) : TrioStep g s s :=
  ⟨rfl, rfl, fun _ _ h => h, fun _ h => h, fun _ h => h, fun h => h, fun h => h⟩

theorem trio_step_trans (g : TraceGraph) (s1 s2 s3 : Trimmer)
    (a : TrioStep g s1 s2) (b : TrioStep g s2 s3) : TrioStep g s1 s3 :=
  ⟨b.inst_eq.trans a.inst_eq, b.assoc_eq.trans a.assoc_eq,
    fun i f h => b.frame_stable i f (a.frame_stable i f h),
    fun fr h => b.frames_mono fr (a.frames_mono fr h),
    fun i h => b.visited_mono i (a.visited_mono i h),
    fun h => b.canonical (a.canonical h),
    fun h => b.backed (a.backed h)⟩

/-- A step that keeps the output's tracked collections and the visited
set is a `TrioStep`. -/
theorem trio_step_of_fields (g : TraceGraph) (s s' : Trimmer)
    (h1 : s'.out.issue_instances = s.out.issue_instances)
    (h2 : s'.out.issue_instance_trace_frame_assoc =
      s.out.issue_instance_trace_frame_assoc)
    (h3 : s'.out.trace_frames = s.out.trace_frames)
    (h4 : s'.visited_trace_frame_ids = s.visited_trace_frame_ids) :
    TrioStep g s s' := by
  refine ⟨h1, h2, ?_, ?_, ?_, ?_, ?_⟩
  · intro i f h
    rw [frame_by_id_congr s'.out s.out h3 i]
    exact h
  · intro fr h; rw [h3]; exact h
  · intro i h; rw [h4]; exact h
  · intro h fr hfr
    rw [h3] at hfr
    exact h fr hfr
  · intro h i hi
    rw [h4] at hi
    obtain ⟨fr, hfr, hid⟩ := h i hi
    exact ⟨fr, h3 ▸ hfr, hid⟩

theorem foldl_fields_inv {α : Type} (f : TraceGraph → α → TraceGraph)
    (hstep : ∀ og x, (f og x).issue_instances = og.issue_instances ∧
      (f og x).issue_instance_trace_frame_assoc = og.issue_instance_trace_frame_assoc ∧
      (f og x).trace_frames = og.trace_frames) :
    ∀ (l : List α) (og : TraceGraph),
      (l.foldl f og).issue_instances = og.issue_instances ∧
      (l.foldl f og).issue_instance_trace_frame_assoc =
        og.issue_instance_trace_frame_assoc ∧
      (l.foldl f og).trace_frames = og.trace_frames := by
  intro l
  induction l with
  | nil => intro og; exact ⟨rfl, rfl, rfl⟩
  | cons x xs ih =>
    intro og
    obtain ⟨i1, i2, i3⟩ := ih (f og x)
    obtain ⟨s1, s2, s3⟩ := hstep og x
    exact ⟨i1.trans s1, i2.trans s2, i3.trans s3⟩

/-- The leaf-association copy loop of `_add_trace_frame` touches only
texts and leaf associations. -/
theorem leaf_fold_fields (g : TraceGraph) (fid : Nat) (l : List (Nat × Option Nat))
    (og : TraceGraph) :
    ((l.foldl (fun og (p : Nat × Option Nat) =>
      match g.text_by_id p.1 with
      | none => og
      | some leaf =>
        let og := if (og.text_by_id p.1).isSome then og else og.add_shared_text leaf
        og.add_trace_frame_leaf_assoc_ids fid p.1 p.2) og)).issue_instances =
        og.issue_instances ∧
    ((l.foldl (fun og (p : Nat × Option Nat) =>
      match g.text_by_id p.1 with
      | none => og
      | some leaf =>
        let og := if (og.text_by_id p.1).isSome then og else og.add_shared_text leaf
        og.add_trace_frame_leaf_assoc_ids fid p.1 p.2) og)).issue_instance_trace_frame_assoc =
        og.issue_instance_trace_frame_assoc ∧
    ((l.foldl (fun og (p : Nat × Option Nat) =>
      match g.text_by_id p.1 with
      | none => og
      | some leaf =>
        let og := if (og.text_by_id p.1).isSome then og else og.add_shared_text leaf
        og.add_trace_frame_leaf_assoc_ids fid p.1 p.2) og)).trace_frames =
        og.trace_frames := by
  refine foldl_fields_inv _ ?_ l og
  intro og p
  cases ht : g.text_by_id p.1 with
  | none => exact ⟨rfl, rfl, rfl⟩
  | some leaf =>
    dsimp only
    by_cases hp : (og.text_by_id p.1).isSome
    · simp only [hp, if_true]
      exact add_leaf_assoc_fields og fid p.1 p.2
    · simp only [hp, if_false]
      obtain ⟨a1, a2, a3⟩ := add_leaf_assoc_fields (og.add_shared_text leaf) fid p.1 p.2
      obtain ⟨b1, b2, b3⟩ := add_shared_text_fields og leaf
      exact ⟨a1.trans b1, a2.trans b2, a3.trans b3⟩

/-- The text/leaf-association tail of `_add_trace_frame` touches none of
the tracked collections. -/
theorem add_frame_extras_fields (g : TraceGraph) (f : TraceFrame) (og : TraceGraph) :
    (add_frame_extras g f og).issue_instances = og.issue_instances ∧
    (add_frame_extras g f og).issue_instance_trace_frame_assoc =
      og.issue_instance_trace_frame_assoc ∧
    (add_frame_extras g f og).trace_frames = og.trace_frames := by
  unfold add_frame_extras
  obtain ⟨p1, p2, p3⟩ := populate_shared_text_into_fields g f.filename_id og
  obtain ⟨q1, q2, q3⟩ := populate_shared_text_into_fields g f.caller_id
    (populate_shared_text_into g f.filename_id og)
  obtain ⟨r1, r2, r3⟩ := populate_shared_text_into_fields g f.callee_id
    (populate_shared_text_into g f.caller_id
      (populate_shared_text_into g f.filename_id og))
  obtain ⟨l1, l2, l3⟩ := leaf_fold_fields g f.id (g.leaf_assocs_of f.id)
    (populate_shared_text_into g f.callee_id
      (populate_shared_text_into g f.caller_id
        (populate_shared_text_into g f.filename_id og)))
  exact ⟨l1.trans (r1.trans (q1.trans p1)),
    l2.trans (r2.trans (q2.trans p2)),
    l3.trans (r3.trans (q3.trans p3))⟩

/-- The annotation/child-frame association loop of
`_add_trace_annotation` touches only that association. -/
theorem annot_assoc_fold_fields (aid : Nat) (children : List TraceFrame)
    (og : TraceGraph) :
    (add_annot_assocs aid children og).issue_instances = og.issue_instances ∧
    (add_annot_assocs aid children og).issue_instance_trace_frame_assoc =
      og.issue_instance_trace_frame_assoc ∧
    (add_annot_assocs aid children og).trace_frames = og.trace_frames := by
  refine foldl_fields_inv _ ?_ children og
  intro og child
  exact add_annot_assoc_fields og aid child.id

/-- Unfolding equation of `populate_trace` at positive fuel on a
non-empty worklist. -/
theorem populate_trace_succ_cons (g : TraceGraph) (n tfId : Nat) (rest : List Nat)
    (s : Trimmer) :
    populate_trace g (Nat.succ n) (tfId :: rest) s =
      (if tfId ∈ s.visited_trace_frame_ids then populate_trace g n rest s
       else
         match g.frame_by_id tfId with
         | none => populate_trace g n rest s
         | some frame =>
           match add_trace_frame g n frame s with
           | none => none
           | some s1 =>
             populate_trace g n
               ((((g.get_next_trace_frames frame).filter (fun nf =>
                   decide (nf.id ∉
                     (insert tfId s1.visited_trace_frame_ids : Finset Nat)))).map
                 (fun nf => nf.id)).reverse ++ rest)
               { s1 with visited_trace_frame_ids :=
                   insert tfId s1.visited_trace_frame_ids }) := rfl

/-- Unfolding equation of `add_trace_frame` at positive fuel. -/
theorem add_trace_frame_succ (g : TraceGraph) (n : Nat) (f : TraceFrame) (s : Trimmer) :
    add_trace_frame g (Nat.succ n) f s =
      (match add_annots g n (g.get_condition_annots f.id)
          { s with out := s.out.add_trace_frame_entity f } with
       | none => none
       | some s2 => some { s2 with out := add_frame_extras g f s2.out }) := rfl

/-- Unfolding equation of `add_annots` at positive fuel. -/
theorem add_annots_succ_cons (g : TraceGraph) (n : Nat) (ann : TraceFrameAnnot)
    (rest : List TraceFrameAnnot) (s : Trimmer) :
    add_annots g (Nat.succ n) (ann :: rest) s =
      (match add_trace_annot g n ann s with
       | none => none
       | some s1 => add_annots g n rest s1) := rfl

/-- Unfolding equation of `add_trace_annot` at positive fuel. -/
theorem add_trace_annot_succ (g : TraceGraph) (n : Nat) (a : TraceFrameAnnot)
    (s : Trimmer) :
    add_trace_annot g (Nat.succ n) a s =
      populate_trace g n (((g.get_annot_trace_frames a.id).map (fun c => c.id)).reverse)
        { s with
          out := add_annot_assocs a.id (g.get_annot_trace_frames a.id)
            (s.out.add_trace_annot_entity a) } := rfl

/-- One completed call of any member of the trace-copy trio is a
`TrioStep`; a completed `_add_trace_frame` additionally leaves a frame
with the argument's id in the output. -/
theorem trio_step_all (g : TraceGraph) : ∀ fuel : Nat,
    (∀ ids s s', populate_trace g fuel ids s = some s' → TrioStep g s s') ∧
    (∀ f s s', g.frame_by_id f.id = some f → add_trace_frame g fuel f s = some s' →
      TrioStep g s s' ∧ ∃ fr ∈ s'.out.trace_frames, fr.id = f.id) ∧
    (∀ l s s', add_annots g fuel l s = some s' → TrioStep g s s') ∧
    (∀ a s s', add_trace_annot g fuel a s = some s' → TrioStep g s s') := by
  intro fuel
  induction fuel with
  | zero =>
    refine ⟨?_, ?_, ?_, ?_⟩
    · intro ids s s' h
      cases ids with
      | nil =>
        have hss : s = s' := Option.some.inj h
        subst hss
        exact trio_step_refl g s
      | cons a as => exact Option.noConfusion h
    · intro f s s' _ h
      exact Option.noConfusion h
    · intro l s s' h
      cases l with
      | nil =>
        have hss : s = s' := Option.some.inj h
        subst hss
        exact trio_step_refl g s
      | cons a as => exact Option.noConfusion h
    · intro a s s' h
      exact Option.noConfusion h
  | succ n ih =>
    obtain ⟨ihT, ihF, ihA, ihN⟩ := ih
    have hN : ∀ a s s', add_trace_annot g (Nat.succ n) a s = some s' →
        TrioStep g s s' := by
      intro a s s' h
      rw [add_trace_annot_succ] at h
      refine trio_step_trans g _ _ _ ?_ (ihT _ _ _ h)
      obtain ⟨f1, f2, f3⟩ := annot_assoc_fold_fields a.id (g.get_annot_trace_frames a.id)
        (s.out.add_trace_annot_entity a)
      obtain ⟨e1, e2, e3⟩ := add_annot_entity_fields s.out a
      exact trio_step_of_fields g s _ (f1.trans e1) (f2.trans e2) (f3.trans e3) rfl
    have hA : ∀ l s s', add_annots g (Nat.succ n) l s = some s' → TrioStep g s s' := by
      intro l s s' h
      cases l with
      | nil =>
        have hss : s = s' := Option.some.inj h
        subst hss
        exact trio_step_refl g s
      | cons ann rest =>
        rw [add_annots_succ_cons] at h
        cases hone : add_trace_annot g n ann s with
        | none => rw [hone] at h; exact Option.noConfusion h
        | some s1 =>
          rw [hone] at h
          exact trio_step_trans g _ _ _ (ihN ann s s1 hone) (ihA rest s1 s' h)
    have hF : ∀ f s s', g.frame_by_id f.id = some f →
        add_trace_frame g (Nat.succ n) f s = some s' →
        TrioStep g s s' ∧ ∃ fr ∈ s'.out.trace_frames, fr.id = f.id := by
      intro f s s' hcanon h
      rw [add_trace_frame_succ] at h
      cases hann : add_annots g n (g.get_condition_annots f.id)
          { s with out := s.out.add_trace_frame_entity f } with
      | none => rw [hann] at h; exact Option.noConfusion h
      | some s2 =>
        rw [hann] at h
        have step1 : TrioStep g s { s with out := s.out.add_trace_frame_entity f } := by
          obtain ⟨e1, e2⟩ := add_frame_entity_fields s.out f
          refine ⟨e1, e2, ?_, ?_, fun i hi => hi, ?_, ?_⟩
          · intro i fr h2
            exact add_frame_entity_stable s.out f i fr h2
          · intro fr h2
            exact add_frame_entity_mono s.out f fr h2
          · intro hc fr hfr
            rcases add_frame_entity_mem s.out f fr hfr with h2 | h2
            · rw [h2]; exact hcanon
            · exact hc fr h2
          · intro hb i hi
            obtain ⟨fr, hfr, hid⟩ := hb i hi
            exact ⟨fr, add_frame_entity_mono s.out f fr hfr, hid⟩
        have step2 : TrioStep g { s with out := s.out.add_trace_frame_entity f } s2 :=
          ihA _ _ _ hann
        have hs' : s' = { s2 with out := add_frame_extras g f s2.out } :=
          (Option.some.inj h).symm
        have step3 : TrioStep g s2 s' := by
          obtain ⟨x1, x2, x3⟩ := add_frame_extras_fields g f s2.out
          subst hs'
          exact trio_step_of_fields g s2 _ x1 x2 x3 rfl
        refine ⟨trio_step_trans g _ _ _ step1 (trio_step_trans g _ _ _ step2 step3), ?_⟩
        obtain ⟨fr, hm, hid⟩ := add_frame_entity_backs s.out f
        exact ⟨fr, step3.frames_mono fr (step2.frames_mono fr hm), hid⟩
    have hT : ∀ ids s s', populate_trace g (Nat.succ n) ids s = some s' →
        TrioStep g s s' := by
      intro ids s s' h
      cases ids with
      | nil =>
        have hss : s = s' := Option.some.inj h
        subst hss
        exact trio_step_refl g s
      | cons tfId rest =>
        rw [populate_trace_succ_cons] at h
        by_cases hv : tfId ∈ s.visited_trace_frame_ids
        · rw [if_pos hv] at h
          exact ihT rest s s' h
        · rw [if_neg hv] at h
          split at h
          · exact ihT rest s s' h
          · rename_i frame hfr
            split at h
            · exact Option.noConfusion h
            · rename_i s1 hadd
              have hid : frame.id = tfId := frame_by_id_id g tfId frame hfr
              have hcanon : g.frame_by_id frame.id = some frame := by
                rw [hid]; exact hfr
              obtain ⟨stepF, backsF⟩ := ihF frame s s1 hcanon hadd
              have step12 : TrioStep g s1
                  { s1 with visited_trace_frame_ids :=
                      insert tfId s1.visited_trace_frame_ids } := by
                refine ⟨rfl, rfl, fun i f hh => hh, fun fr hh => hh, ?_, fun hc => hc, ?_⟩
                · intro i hi
                  exact Finset.mem_insert_of_mem hi
                · intro hb i hi
                  rcases Finset.mem_insert.mp hi with h1 | h1
                  · subst h1
                    obtain ⟨fr, hm, hfid⟩ := backsF
                    exact ⟨fr, hm, by rw [hfid, hid]⟩
                  · exact hb i h1
              exact trio_step_trans g _ _ _ stepF
                (trio_step_trans g _ _ _ step12 (ihT _ _ _ h))
    exact ⟨hT, hF, hA, hN⟩

theorem populate_trace_trio (g : TraceGraph) (fuel : Nat) (ids : List Nat)
    (s s' : Trimmer) (h : populate_trace g fuel ids s = some s') : TrioStep g s s' :=
  (trio_step_all g fuel).1 ids s s' h

theorem add_trace_frame_trio (g : TraceGraph) (fuel : Nat) (f : TraceFrame)
    (s s' : Trimmer) (hc : g.frame_by_id f.id = some f)
    (h : add_trace_frame g fuel f s = some s') :
    TrioStep g s s' ∧ ∃ fr ∈ s'.out.trace_frames, fr.id = f.id :=
  (trio_step_all g fuel).2.1 f s s' hc h

/-- A completed `_populate_trace` run has visited every worklist id that
resolves in the source graph. -/
theorem populate_trace_visits (g : TraceGraph) : ∀ (fuel : Nat) (ids : List Nat)
    (s s' : Trimmer), populate_trace g fuel ids s = some s' →
    ∀ i ∈ ids, (g.frame_by_id i).isSome → i ∈ s'.visited_trace_frame_ids := by
  intro fuel
  induction fuel with
  | zero =>
    intro ids s s' h i hi _
    cases ids with
    | nil => exact absurd hi (List.not_mem_nil i)
    | cons a as => exact Option.noConfusion h
  | succ n ih =>
    intro ids s s' h i hi hsome
    cases ids with
    | nil => exact absurd hi (List.not_mem_nil i)
    | cons tfId rest =>
      rw [populate_trace_succ_cons] at h
      by_cases hv : tfId ∈ s.visited_trace_frame_ids
      · rw [if_pos hv] at h
        rcases List.mem_cons.mp hi with h1 | h1
        · subst h1
          exact (populate_trace_trio g n rest s s' h).visited_mono i hv
        · exact ih rest s s' h i h1 hsome
      · rw [if_neg hv] at h
        split at h
        · rename_i hfr
          rcases List.mem_cons.mp hi with h1 | h1
          · subst h1
            rw [hfr] at hsome
            exact absurd hsome (by simp)
          · exact ih rest s s' h i h1 hsome
        · rename_i frame hfr
          split at h
          · exact Option.noConfusion h
          · rename_i s1 hadd
            rcases List.mem_cons.mp hi with h1 | h1
            · subst h1
              exact (populate_trace_trio g n _ _ s' h).visited_mono i
                (Finset.mem_insert_self i s1.visited_trace_frame_ids)
            · exact ih _ _ _ h i (List.mem_append_right _ h1) hsome

/-! ### Phase-level step relation

`PhaseStep g s s'` is the weakening of `TrioStep` that the instance- and
association-adding phases satisfy: instances and associations only grow,
every added instance is copied verbatim from the source graph, frames
and the visited set only grow with stable lookups, and the structural
invariants are preserved. -/

structure PhaseStep (g : TraceGraph) (s s' : Trimmer) : Prop where
  inst_mono : ∀ i ∈ s.out.issue_instances, i ∈ s'.out.issue_instances
  inst_origin : ∀ i ∈ s'.out.issue_instances,
    i ∈ s.out.issue_instances ∨ i ∈ g.issue_instances
  assoc_mono : ∀ a ∈ s.out.issue_instance_trace_frame_assoc,
    a ∈ s'.out.issue_instance_trace_frame_assoc
  frame_stable : ∀ i f, s.out.frame_by_id i = some f → s'.out.frame_by_id i = some f
  frames_mono : ∀ fr ∈ s.out.trace_frames, fr ∈ s'.out.trace_frames
  visited_mono : ∀ i ∈ s.visited_trace_frame_ids, i ∈ s'.visited_trace_frame_ids
  canonical : FramesCanonical g s → FramesCanonical g s'
  backed : VisitedBacked s → VisitedBacked s'

theorem phase_step_refl (g : TraceGraph) (s : Trimmer) : PhaseStep g s s :=
  ⟨fun _ h => h, fun i h => Or.inl h, fun _ h => h, fun _ _ h => h, fun _ h => h,
    fun _ h => h, fun h => h, fun h => h⟩

theorem phase_step_trans (g : TraceGraph) (s1 s2 s3 : Trimmer)
    (a : PhaseStep g s1 s2) (b : PhaseStep g s2 s3) : PhaseStep g s1 s3 := by
  refine ⟨?_, ?_, ?_, ?_, ?_, ?_, ?_, ?_⟩
  · intro i h; exact b.inst_mono i (a.inst_mono i h)
  · intro i h
    rcases b.inst_origin i h with h1 | h1
    · exact a.inst_origin i h1
    · exact Or.inr h1
  · intro x h; exact b.assoc_mono x (a.assoc_mono x h)
  · intro i f h; exact b.frame_stable i f (a.frame_stable i f h)
  · intro fr h; exact b.frames_mono fr (a.frames_mono fr h)
  · intro i h; exact b.visited_mono i (a.visited_mono i h)
  · intro h; exact b.canonical (a.canonical h)
  · intro h; exact b.backed (a.backed h)

theorem phase_step_of_trio (g : TraceGraph) (s s' : Trimmer) (h : TrioStep g s s') :
    PhaseStep g s s' := by
  refine ⟨?_, ?_, ?_, h.frame_stable, h.frames_mono, h.visited_mono,
    h.canonical, h.backed⟩
  · intro i hi; rw [h.inst_eq]; exact hi
  · intro i hi; rw [h.inst_eq] at hi; exact Or.inl hi
  · intro a ha; rw [h.assoc_eq]; exact ha

/-- The `_populate_issue` output transformation adds exactly the given
instance to the instance list and leaves the instance/frame association
and the trace frames untouched. -/
theorem populate_issue_out_fields (g : TraceGraph) (iid : Nat) (inst : IssueInstance)
    (og : TraceGraph) :
    (populate_issue_out g iid inst og).issue_instance_trace_frame_assoc =
      og.issue_instance_trace_frame_assoc ∧
    (populate_issue_out g iid inst og).trace_frames = og.trace_frames ∧
    (∀ j ∈ (populate_issue_out g iid inst og).issue_instances,
      j = inst ∨ j ∈ og.issue_instances) ∧
    (∀ j ∈ og.issue_instances, j ∈ (populate_issue_out g iid inst og).issue_instances) := by
  obtain ⟨p1, p2, p3⟩ := populate_shared_text_into_fields g inst.message_id og
  obtain ⟨q1, q2, q3⟩ := populate_shared_text_into_fields g inst.filename_id
    (populate_shared_text_into g inst.message_id og)
  obtain ⟨r1, r2, r3⟩ := populate_shared_text_into_fields g inst.callable_id
    (populate_shared_text_into g inst.filename_id
      (populate_shared_text_into g inst.message_id og))
  set og3 := populate_shared_text_into g inst.callable_id
    (populate_shared_text_into g inst.filename_id
      (populate_shared_text_into g inst.message_id og)) with hog3
  obtain ⟨i2, i3⟩ := add_issue_instance_fields og3 inst
  set og4 := og3.add_issue_instance inst with hog4
  have hissue :
      (match g.issue_by_id inst.issue_id with
        | some iss => og4.add_issue iss
        | none => og4).issue_instances = og4.issue_instances ∧
      (match g.issue_by_id inst.issue_id with
        | some iss => og4.add_issue iss
        | none => og4).issue_instance_trace_frame_assoc =
        og4.issue_instance_trace_frame_assoc ∧
      (match g.issue_by_id inst.issue_id with
        | some iss => og4.add_issue iss
        | none => og4).trace_frames = og4.trace_frames := by
    cases g.issue_by_id inst.issue_id with
    | none => exact ⟨rfl, rfl, rfl⟩
    | some iss => exact add_issue_fields og4 iss
  obtain ⟨m5, m6, m7⟩ := hissue
  set og5 := (match g.issue_by_id inst.issue_id with
    | some iss => og4.add_issue iss
    | none => og4) with hog5
  have hfix :
      (match g.fix_info_of iid with
        | some fi => og5.add_issue_instance_fix_info iid fi
        | none => og5).issue_instances = og5.issue_instances ∧
      (match g.fix_info_of iid with
        | some fi => og5.add_issue_instance_fix_info iid fi
        | none => og5).issue_instance_trace_frame_assoc =
        og5.issue_instance_trace_frame_assoc ∧
      (match g.fix_info_of iid with
        | some fi => og5.add_issue_instance_fix_info iid fi
        | none => og5).trace_frames = og5.trace_frames := by
    cases g.fix_info_of iid with
    | none => exact ⟨rfl, rfl, rfl⟩
    | some fi => exact add_fix_info_fields og5 iid fi
  obtain ⟨n5, n6, n7⟩ := hfix
  set og6 := (match g.fix_info_of iid with
    | some fi => og5.add_issue_instance_fix_info iid fi
    | none => og5) with hog6
  have hfold :
      ((g.instance_text_assoc_ids iid).foldl (fun og tid =>
        match g.text_by_id tid with
        | none => og
        | some t =>
          let og := if (og.text_by_id tid).isSome then og else og.add_shared_text t
          og.add_issue_instance_shared_text_assoc_ids iid tid) og6).issue_instances =
        og6.issue_instances ∧
      ((g.instance_text_assoc_ids iid).foldl (fun og tid =>
        match g.text_by_id tid with
        | none => og
        | some t =>
          let og := if (og.text_by_id tid).isSome then og else og.add_shared_text t
          og.add_issue_instance_shared_text_assoc_ids iid
            tid) og6).issue_instance_trace_frame_assoc =
        og6.issue_instance_trace_frame_assoc ∧
      ((g.instance_text_assoc_ids iid).foldl (fun og tid =>
        match g.text_by_id tid with
        | none => og
        | some t =>
          let og := if (og.text_by_id tid).isSome then og else og.add_shared_text t
          og.add_issue_instance_shared_text_assoc_ids iid tid) og6).trace_frames =
        og6.trace_frames := by
    refine foldl_fields_inv _ ?_ (g.instance_text_assoc_ids iid) og6
    intro og tid
    cases ht : g.text_by_id tid with
    | none => exact ⟨rfl, rfl, rfl⟩
    | some t =>
      dsimp only
      by_cases hp : (og.text_by_id tid).isSome
      · simp only [hp, if_true]
        exact add_text_assoc_fields og iid tid
      · simp only [hp, if_false]
        obtain ⟨a1, a2, a3⟩ := add_text_assoc_fields (og.add_shared_text t) iid tid
        obtain ⟨b1, b2, b3⟩ := add_shared_text_fields og t
        exact ⟨a1.trans b1, a2.trans b2, a3.trans b3⟩
  obtain ⟨f5, f6, f7⟩ := hfold
  refine ⟨?_, ?_, ?_, ?_⟩
  · exact f6.trans (n6.trans (m6.trans (i2.trans (r2.trans (q2.trans p2)))))
  · exact f7.trans (n7.trans (m7.trans (i3.trans (r3.trans (q3.trans p3)))))
  · intro j hj
    have hj4 : j ∈ og4.issue_instances := by
      have := f5.trans (n5.trans m5)
      exact this ▸ hj
    rcases add_issue_instance_mem og3 inst j hj4 with h1 | h1
    · exact Or.inl h1
    · right
      have := r1.trans (q1.trans p1)
      exact this ▸ h1
  · intro j hj
    have hj3 : j ∈ og3.issue_instances := by
      have := r1.trans (q1.trans p1)
      exact this.symm ▸ hj
    have hj4 : j ∈ og4.issue_instances := add_issue_instance_mono og3 inst j hj3
    have := (f5.trans (n5.trans m5)).symm
    exact this ▸ hj4

/-- `_populate_issue` is a `PhaseStep` that leaves the instance/frame
association, the trace frames and the visited set untouched. -/
theorem populate_issue_phase (g : TraceGraph) (iid : Nat) (s : Trimmer) :
    PhaseStep g s (populate_issue g iid s) ∧
    (populate_issue g iid s).out.issue_instance_trace_frame_assoc =
      s.out.issue_instance_trace_frame_assoc ∧
    (populate_issue g iid s).out.trace_frames = s.out.trace_frames ∧
    (populate_issue g iid s).visited_trace_frame_ids = s.visited_trace_frame_ids := by
  cases hinst : g.instance_by_id iid with
  | none =>
    have heq : populate_issue g iid s = s := by
      unfold populate_issue
      rw [hinst]
    rw [heq]
    exact ⟨phase_step_refl g s, rfl, rfl, rfl⟩
  | some inst =>
    have heq : populate_issue g iid s =
        { s with out := populate_issue_out g iid inst s.out } := by
      unfold populate_issue
      rw [hinst]
    obtain ⟨w2, w3, worigin, wmono⟩ := populate_issue_out_fields g iid inst s.out
    rw [heq]
    refine ⟨⟨?_, ?_, ?_, ?_, ?_, fun i h => h, ?_, ?_⟩, w2, w3, rfl⟩
    · intro j hj
      exact wmono j hj
    · intro j hj
      rcases worigin j hj with h1 | h1
      · right
        rw [h1]
        exact instance_by_id_mem g iid inst hinst
      · exact Or.inl h1
    · intro a ha
      rw [w2]
      exact ha
    · intro i f h
      rw [frame_by_id_congr _ _ w3]
      exact h
    · intro fr h
      rw [w3]
      exact h
    · intro hc fr hfr
      rw [w3] at hfr
      exact hc fr hfr
    · intro hb i hi
      obtain ⟨fr, hm, hfid⟩ := hb i hi
      refine ⟨fr, ?_, hfid⟩
      rw [w3]
      exact hm

theorem instance_by_id_isSome_iff (h : TraceGraph) (j : Nat) :
    (h.instance_by_id j).isSome ↔ ∃ x ∈ h.issue_instances, x.id = j := by
  unfold TraceGraph.instance_by_id
  rw [List.find?_isSome]
  simp

/-- `_populate_issue` can only make the looked-up instance id itself
newly present. -/
theorem populate_issue_ids (g : TraceGraph) (iid : Nat) (s : Trimmer) (j : Nat)
    (h : ((populate_issue g iid s).out.instance_by_id j).isSome) :
    (s.out.instance_by_id j).isSome ∨ j = iid := by
  cases hinst : g.instance_by_id iid with
  | none =>
    left
    have heq : populate_issue g iid s = s := by
      unfold populate_issue
      rw [hinst]
    rwa [heq] at h
  | some inst =>
    have heq : populate_issue g iid s =
        { s with out := populate_issue_out g iid inst s.out } := by
      unfold populate_issue
      rw [hinst]
    rw [heq] at h
    rw [instance_by_id_isSome_iff] at h
    obtain ⟨x, hx, hxid⟩ := h
    rcases (populate_issue_out_fields g iid inst s.out).2.2.1 x hx with h1 | h1
    · right
      rw [← hxid, h1]
      exact instance_by_id_id g iid inst hinst
    · left
      rw [instance_by_id_isSome_iff]
      exact ⟨x, h1, hxid⟩

/-- Recording an instance/condition association is a `PhaseStep` that
changes nothing else. -/
theorem add_tf_assoc_phase (g : TraceGraph) (s : Trimmer) (iid fid : Nat) :
    PhaseStep g s
      { s with out := s.out.add_issue_instance_trace_frame_assoc_ids iid fid } := by
  obtain ⟨e1, e2⟩ := add_tf_assoc_fields s.out iid fid
  refine ⟨?_, ?_, ?_, ?_, ?_, fun i h => h, ?_, ?_⟩
  · intro j hj; rw [e1]; exact hj
  · intro j hj; rw [e1] at hj; exact Or.inl hj
  · intro a ha; exact add_tf_assoc_mono s.out iid fid a ha
  · intro i f h
    rw [frame_by_id_congr _ _ e2]
    exact h
  · intro fr h; rw [e2]; exact h
  · intro hc fr hfr
    rw [e2] at hfr
    exact hc fr hfr
  · intro hb i hi
    obtain ⟨fr, hm, hfid⟩ := hb i hi
    refine ⟨fr, ?_, hfid⟩
    rw [e2]
    exact hm

/-- The hit-processing fold of the backward search: a `PhaseStep` whose
newly present instance ids all have a leaf set intersecting `leaves`. -/
theorem process_condition_instances_char (g : TraceGraph) (condId : Nat)
    (leaves : Finset Nat) (s : Trimmer) :
    PhaseStep g s (process_condition_instances g condId leaves s) ∧
    (∀ iid, ((process_condition_instances g condId leaves s).out.instance_by_id
        iid).isSome →
      (s.out.instance_by_id iid).isSome ∨ instance_leaf_ids g iid ∩ leaves ≠ ∅) := by
  unfold process_condition_instances
  generalize (g.frame_issue_instances condId) = l
  induction l generalizing s with
  | nil => exact ⟨phase_step_refl g s, fun iid h => Or.inl h⟩
  | cons iid0 rest ih =>
    rw [List.foldl_cons]
    by_cases hleaf : instance_leaf_ids g iid0 ∩ leaves = ∅
    · rw [if_pos hleaf]
      exact ih s
    · rw [if_neg hleaf]
      set s0 := if (s.out.instance_by_id iid0).isSome then s else populate_issue g iid0 s
        with hs0
      set s1 : Trimmer :=
        { s0 with out := s0.out.add_issue_instance_trace_frame_assoc_ids iid0 condId }
        with hs1
      have hstep0 : PhaseStep g s s0 := by
        rw [hs0]
        by_cases hpres : (s.out.instance_by_id iid0).isSome
        · rw [if_pos hpres]
          exact phase_step_refl g s
        · rw [if_neg hpres]
          exact (populate_issue_phase g iid0 s).1
      have hids0 : ∀ j, ((s0.out.instance_by_id j)).isSome →
          (s.out.instance_by_id j).isSome ∨ j = iid0 := by
        intro j hj
        rw [hs0] at hj
        by_cases hpres : (s.out.instance_by_id iid0).isSome
        · rw [if_pos hpres] at hj
          exact Or.inl hj
        · rw [if_neg hpres] at hj
          exact populate_issue_ids g iid0 s j hj
      have hstep1 : PhaseStep g s0 s1 := add_tf_assoc_phase g s0 iid0 condId
      have hids1 : ∀ j, ((s1.out.instance_by_id j)).isSome →
          (s0.out.instance_by_id j).isSome := by
        intro j hj
        rw [hs1] at hj
        rw [instance_by_id_isSome_iff] at hj ⊢
        obtain ⟨x, hx, hxid⟩ := hj
        rw [(add_tf_assoc_fields s0.out iid0 condId).1] at hx
        exact ⟨x, hx, hxid⟩
      obtain ⟨ihphase, ihids⟩ := ih s1
      refine ⟨phase_step_trans g _ _ _ (phase_step_trans g _ _ _ hstep0 hstep1)
        ihphase, ?_⟩
      intro j hj
      rcases ihids j hj with h1 | h1
      · rcases hids0 j (hids1 j h1) with h2 | h2
        · exact Or.inl h2
        · right
          rw [h2]
          exact hleaf
      · exact Or.inr h1

theorem visited_lookup_cons_self (v : List (Nat × Finset Nat)) (c : Nat)
    (ls : Finset Nat) : visited_lookup ((c, ls) :: v) c = some ls := by
  unfold visited_lookup
  rw [List.find?_cons]
  simp

theorem visited_lookup_cons_other (v : List (Nat × Finset Nat)) (c c' : Nat)
    (ls : Finset Nat) (h : c' ≠ c) :
    visited_lookup ((c, ls) :: v) c' = visited_lookup v c' := by
  unfold visited_lookup
  rw [List.find?_cons]
  have : ((c, ls).1 == c') = false := by
    simp only [beq_eq_false_iff_ne]
    exact fun hc => h hc.symm
  rw [this]

theorem visited_lookup_update_self (v : List (Nat × Finset Nat)) (c : Nat)
    (old ls : Finset Nat) (h : visited_lookup v c = some old) :
    visited_lookup (visited_update v c ls) c = some ls := by
  induction v with
  | nil => exact absurd h (by simp [visited_lookup])
  | cons e rest ih =>
    unfold visited_update
    rw [List.map_cons]
    by_cases he : (e.1 == c) = true
    · rw [if_pos he]
      unfold visited_lookup
      rw [List.find?_cons]
      simp only [he]
      rfl
    · rw [if_neg he]
      have he2 : (e.1 == c) = false := by
        simpa using he
      have hrest : visited_lookup rest c = some old := by
        unfold visited_lookup at h ⊢
        rw [List.find?_cons, he2] at h
        exact h
      have := ih hrest
      unfold visited_lookup at this ⊢
      rw [List.find?_cons, he2]
      exact this

theorem visited_lookup_update_other (v : List (Nat × Finset Nat)) (c c' : Nat)
    (ls : Finset Nat) (h : c' ≠ c) :
    visited_lookup (visited_update v c ls) c' = visited_lookup v c' := by
  induction v with
  | nil => rfl
  | cons e rest ih =>
    unfold visited_update
    rw [List.map_cons]
    by_cases he : (e.1 == c) = true
    · rw [if_pos he]
      have he1 : e.1 = c := by simpa using he
      have hne : ((e.1 : Nat) == c') = false := by
        simp only [beq_eq_false_iff_ne, he1]
        exact fun hc => h hc.symm
      unfold visited_lookup
      rw [List.find?_cons, List.find?_cons]
      simp only [hne]
      exact ih
    · rw [if_neg he]
      unfold visited_lookup
      rw [List.find?_cons, List.find?_cons]
      cases he2 : (e.1 == c') with
      | true => rfl
      | false => exact ih

/-- Intersection with a subset transfers non-emptiness upward. -/
theorem inter_ne_empty_mono (a b c : Finset Nat) (hsub : b ⊆ c)
    (h : a ∩ b ≠ ∅) : a ∩ c ≠ ∅ := by
  obtain ⟨x, hx⟩ := Finset.nonempty_iff_ne_empty.mpr h
  refine Finset.nonempty_iff_ne_empty.mp ⟨x, ?_⟩
  rcases Finset.mem_inter.mp hx with ⟨h1, h2⟩
  exact Finset.mem_inter.mpr ⟨h1, hsub h2⟩

/-- The backward condition search (`while que` loop): a completed run is
a `PhaseStep`; the recorded leaf set of a visited condition only grows;
and every instance id newly present after the loop had, at some
condition of the final visited map, a leaf set intersecting the leaves
recorded for that condition. -/
theorem search_loop_char (g : TraceGraph) : ∀ (fuel : Nat)
    (que : List (TraceFrame × Finset Nat)) (visited : List (Nat × Finset Nat))
    (s : Trimmer) (visited' : List (Nat × Finset Nat)) (s' : Trimmer),
    search_loop g fuel que visited s = some (visited', s') →
    PhaseStep g s s' ∧
    (∀ c ls, visited_lookup visited c = some ls →
      ∃ ls', visited_lookup visited' c = some ls' ∧ ls ⊆ ls') ∧
    (∀ iid, (s'.out.instance_by_id iid).isSome →
      (s.out.instance_by_id iid).isSome ∨
      ∃ c ls, visited_lookup visited' c = some ls ∧
        instance_leaf_ids g iid ∩ ls ≠ ∅) := by
  intro fuel
  induction fuel with
  | zero =>
    intro que visited s visited' s' h
    cases que with
    | nil =>
      obtain ⟨h1, h2⟩ := Prod.mk.injEq .. ▸ Option.some.inj h
      subst h1
      subst h2
      exact ⟨phase_step_refl g s, fun c ls hc => ⟨ls, hc, fun x hx => hx⟩,
        fun iid hi => Or.inl hi⟩
    | cons e rest => exact Option.noConfusion h
  | succ n ih =>
    intro que visited s visited' s' h
    cases que with
    | nil =>
      obtain ⟨h1, h2⟩ := Prod.mk.injEq .. ▸ Option.some.inj h
      subst h1
      subst h2
      exact ⟨phase_step_refl g s, fun c ls hc => ⟨ls, hc, fun x hx => hx⟩,
        fun iid hi => Or.inl hi⟩
    | cons e rest =>
      obtain ⟨condition, leaves0⟩ := e
      rw [show search_loop g (Nat.succ n) ((condition, leaves0) :: rest) visited s =
        (match visited_lookup visited condition.id with
        | some old =>
          if leaves0 \ old = ∅ then
            search_loop g n rest visited s
          else
            search_loop g n
              (search_push (get_predecessor_frames g (leaves0 \ old) condition) rest)
              (visited_update visited condition.id (old ∪ (leaves0 \ old)))
              (process_condition_instances g condition.id (leaves0 \ old) s)
        | none =>
          search_loop g n
            (search_push (get_predecessor_frames g leaves0 condition) rest)
            ((condition.id, leaves0) :: visited)
            (process_condition_instances g condition.id leaves0 s)) from rfl] at h
      cases hlk : visited_lookup visited condition.id with
      | some old =>
        rw [hlk] at h
        dsimp only at h
        by_cases hempty : leaves0 \ old = ∅
        · rw [if_pos hempty] at h
          exact ih rest visited s visited' s' h
        · rw [if_neg hempty] at h
          obtain ⟨ihphase, ihmono, ihchar⟩ := ih _ _ _ _ _ h
          obtain ⟨pphase, pchar⟩ :=
            process_condition_instances_char g condition.id (leaves0 \ old) s
          have hself : visited_lookup
              (visited_update visited condition.id (old ∪ (leaves0 \ old)))
              condition.id = some (old ∪ (leaves0 \ old)) :=
            visited_lookup_update_self visited condition.id old _ hlk
          refine ⟨phase_step_trans g _ _ _ pphase ihphase, ?_, ?_⟩
          · intro c ls hc
            by_cases hcc : c = condition.id
            · subst hcc
              have hlsold : ls = old := by
                rw [hlk] at hc
                exact (Option.some.inj hc).symm
              obtain ⟨ls', hls', hsub⟩ := ihmono condition.id _ hself
              refine ⟨ls', hls', ?_⟩
              intro x hx
              refine hsub ?_
              rw [hlsold] at hx
              exact Finset.mem_union_left _ hx
            · have : visited_lookup
                  (visited_update visited condition.id (old ∪ (leaves0 \ old))) c =
                  visited_lookup visited c :=
                visited_lookup_update_other visited condition.id c _ hcc
              obtain ⟨ls', hls', hsub⟩ := ihmono c ls (by rw [this]; exact hc)
              exact ⟨ls', hls', hsub⟩
          · intro iid hi
            rcases ihchar iid hi with h1 | h1
            · rcases pchar iid h1 with h2 | h2
              · exact Or.inl h2
              · right
                obtain ⟨ls', hls', hsub⟩ := ihmono condition.id _ hself
                refine ⟨condition.id, ls', hls', ?_⟩
                refine inter_ne_empty_mono _ _ _ hsub ?_
                refine inter_ne_empty_mono _ _ _ (Finset.subset_union_right) h2
            · exact Or.inr h1
      | none =>
        rw [hlk] at h
        dsimp only at h
        obtain ⟨ihphase, ihmono, ihchar⟩ := ih _ _ _ _ _ h
        obtain ⟨pphase, pchar⟩ :=
          process_condition_instances_char g condition.id leaves0 s
        have hself : visited_lookup ((condition.id, leaves0) :: visited)
            condition.id = some leaves0 :=
          visited_lookup_cons_self visited condition.id leaves0
        refine ⟨phase_step_trans g _ _ _ pphase ihphase, ?_, ?_⟩
        · intro c ls hc
          by_cases hcc : c = condition.id
          · subst hcc
            rw [hlk] at hc
            exact Option.noConfusion hc
          · have : visited_lookup ((condition.id, leaves0) :: visited) c =
                visited_lookup visited c :=
              visited_lookup_cons_other visited condition.id c leaves0 hcc
            obtain ⟨ls', hls', hsub⟩ := ihmono c ls (by rw [this]; exact hc)
            exact ⟨ls', hls', hsub⟩
        · intro iid hi
          rcases ihchar iid hi with h1 | h1
          · rcases pchar iid h1 with h2 | h2
            · exact Or.inl h2
            · right
              obtain ⟨ls', hls', hsub⟩ := ihmono condition.id _ hself
              exact ⟨condition.id, ls', hls', inter_ne_empty_mono _ _ _ hsub h2⟩
          · exact Or.inr h1

/-- The post-search copying of the visited conditions is a `TrioStep`
(in particular it adds no issue instance). -/
theorem add_visited_frames_trio (g : TraceGraph) (fuel : Nat) :
    ∀ (v : List (Nat × Finset Nat)) (s s' : Trimmer),
    add_visited_frames g fuel v s = some s' → TrioStep g s s' := by
  intro v
  induction v with
  | nil =>
    intro s s' h
    have hss : s = s' := Option.some.inj h
    subst hss
    exact trio_step_refl g s
  | cons e rest ih =>
    intro s s' h
    obtain ⟨c, ls⟩ := e
    rw [show add_visited_frames g fuel ((c, ls) :: rest) s =
      (match g.frame_by_id c with
      | none => add_visited_frames g fuel rest s
      | some f =>
        match add_trace_frame g fuel f s with
        | none => none
        | some s1 => add_visited_frames g fuel rest s1) from rfl] at h
    cases hfr : g.frame_by_id c with
    | none =>
      rw [hfr] at h
      exact ih s s' h
    | some f =>
      rw [hfr] at h
      dsimp only at h
      cases hadd : add_trace_frame g fuel f s with
      | none => rw [hadd] at h; exact Option.noConfusion h
      | some s1 =>
        rw [hadd] at h
        have hcanon : g.frame_by_id f.id = some f := by
          rw [frame_by_id_id g c f hfr]
          exact hfr
        exact trio_step_trans g _ _ _
          (add_trace_frame_trio g fuel f s s1 hcanon hadd).1 (ih s1 s' h)

/-- C1: an issue instance is copied into the trimmed graph by the
backward condition search of step 3 only if, at some condition recorded
in the search's visited map, the intersection of the instance's own
source/sink leaf-id set and the leaf set the search records for that
condition is non-empty.  Contrapositively, an instance whose leaf set is
disjoint from the recorded leaf set of every visited condition is never
added by step 3. -/
theorem search_adds_only_leaf_intersecting_instances (g : TraceGraph) (fuel : Nat)
    (initial : List TraceFrame) (s : Trimmer) (visited : List (Nat × Finset Nat))
    (s1 s2 : Trimmer) (iid : Nat)
    (hsearch : search_loop g fuel (initial_search_que g initial) [] s =
      some (visited, s1))
    (hrun : populate_issues_from_affected_conditions g fuel initial s = some s2)
    (hnew : (s2.out.instance_by_id iid).isSome)
    (hold : ¬ (s.out.instance_by_id iid).isSome) :
    ∃ c ls, visited_lookup visited c = some ls ∧
      instance_leaf_ids g iid ∩ ls ≠ ∅ := by
  unfold populate_issues_from_affected_conditions at hrun
  rw [hsearch] at hrun
  dsimp only at hrun
  cases hpt : populate_trace g fuel ((initial.map (fun c => c.id)).reverse) s1 with
  | none => rw [hpt] at hrun; exact Option.noConfusion hrun
  | some s1b =>
    rw [hpt] at hrun
    have t1 : TrioStep g s1 s1b := populate_trace_trio g fuel _ _ _ hpt
    have t2 : TrioStep g s1b s2 := add_visited_frames_trio g fuel _ _ _ hrun
    have hinsts : s2.out.issue_instances = s1.out.issue_instances :=
      t2.inst_eq.trans t1.inst_eq
    have hnew1 : (s1.out.instance_by_id iid).isSome := by
      rw [instance_by_id_isSome_iff] at hnew ⊢
      obtain ⟨x, hx, hxid⟩ := hnew
      rw [hinsts] at hx
      exact ⟨x, hx, hxid⟩
    obtain ⟨_, _, hchar⟩ := search_loop_char g fuel _ [] s visited s1 hsearch
    rcases hchar iid hnew1 with h1 | h1
    · exact absurd h1 hold
    · exact h1

/-- The witness graph for the backward search: two issue instances share
the first-hop condition 301, but only instance 201's leaf set contains
the leaf 10 active at that condition (instance 202 carries leaf 20). -/
def gC1 : TraceGraph :=
  { shared_texts := [⟨1, "/x/a.py", SharedTextKind.filename⟩,
      ⟨2, "m", SharedTextKind.message⟩, ⟨3, "foo", SharedTextKind.callable⟩,
      ⟨4, "/shared/s.py", SharedTextKind.filename⟩,
      ⟨10, "L1", SharedTextKind.sink⟩, ⟨20, "L2", SharedTextKind.sink⟩]
    issues := [⟨100, 1⟩, ⟨101, 2⟩]
    issue_instances := [⟨201, 100, 1, 3, 2, 0, 0, 0⟩, ⟨202, 101, 1, 3, 2, 0, 0, 0⟩]
    trace_frames := [⟨301, TraceKind.precondition, 3, "p", 7, "q", 4, []⟩]
    trace_annots := []
    issue_instance_fix_info := []
    issue_instance_trace_frame_assoc := [(201, 301), (202, 301)]
    issue_instance_shared_text_assoc := [(201, 10), (202, 20)]
    trace_frame_leaf_assoc := [(301, 10, some 1)]
    trace_frame_annot_trace_frame_assoc := [] }

/-- C1 — witness: on `gC1`, the search run from the frames of
`/shared/` adds instance 201, and the theorem produces a visited
condition whose recorded leaves intersect 201's leaf set. -/
theorem search_adds_only_leaf_intersecting_instances_witness :
    ∃ (v : List (Nat × Finset Nat)) (s1 s2 : Trimmer),
      search_loop gC1 30
        (initial_search_que gC1 (initial_trace_frames gC1 ⟨["/shared/"], false⟩)) []
        Trimmer.init = some (v, s1) ∧
      populate_issues_from_affected_conditions gC1 30
        (initial_trace_frames gC1 ⟨["/shared/"], false⟩) Trimmer.init = some s2 ∧
      ∃ c ls, visited_lookup v c = some ls ∧
        instance_leaf_ids gC1 201 ∩ ls ≠ ∅ := by
  cases hs : search_loop gC1 30
      (initial_search_que gC1 (initial_trace_frames gC1 ⟨["/shared/"], false⟩)) []
      Trimmer.init with
  | none => exact absurd hs (by decide)
  | some p =>
    obtain ⟨v, s1⟩ := p
    cases hr : populate_issues_from_affected_conditions gC1 30
        (initial_trace_frames gC1 ⟨["/shared/"], false⟩) Trimmer.init with
    | none => exact absurd hr (by decide)
    | some s2 =>
      have hnew : (s2.out.instance_by_id 201).isSome := by
        have hmap : (populate_issues_from_affected_conditions gC1 30
            (initial_trace_frames gC1 ⟨["/shared/"], false⟩) Trimmer.init).map
            (fun t => (t.out.instance_by_id 201).isSome) = some true := by decide
        rw [hr] at hmap
        exact Option.some.inj hmap
      refine ⟨v, s1, s2, rfl, rfl, ?_⟩
      exact search_adds_only_leaf_intersecting_instances gC1 30
        (initial_trace_frames gC1 ⟨["/shared/"], false⟩) Trimmer.init v s1 s2 201
        hs hr hnew (by decide)

/-! ### `_populate_issue_trace` and the directional repair -/

/-- An instance has a first-hop association of the given kind in a
graph: some associated frame id resolves to a frame of that kind. -/
def HasFirstHop (h : TraceGraph) (iid : Nat) (k : TraceKind) : Prop :=
  ∃ fid f, (iid, fid) ∈ h.issue_instance_trace_frame_assoc ∧
    h.frame_by_id fid = some f ∧ f.kind = k

theorem issue_trace_step_phase (g : TraceGraph) (iid : Nat) (kind : Option TraceKind)
    (acc : Trimmer × List Nat) (fid : Nat) :
    PhaseStep g acc.1 (issue_trace_fold_step g iid kind acc fid).1 ∧
    (issue_trace_fold_step g iid kind acc fid).1.out.issue_instances =
      acc.1.out.issue_instances ∧
    (∀ x ∈ acc.2, x ∈ (issue_trace_fold_step g iid kind acc fid).2) := by
  unfold issue_trace_fold_step
  cases g.frame_by_id fid with
  | none => exact ⟨phase_step_refl g acc.1, rfl, fun x hx => hx⟩
  | some frame =>
    dsimp only
    by_cases hk : kind.all (fun k => k == frame.kind) = true
    · rw [if_pos hk]
      exact ⟨add_tf_assoc_phase g acc.1 iid fid,
        (add_tf_assoc_fields acc.1.out iid fid).1,
        fun x hx => List.mem_append_left _ hx⟩
    · rw [if_neg hk]
      exact ⟨phase_step_refl g acc.1, rfl, fun x hx => hx⟩

theorem issue_trace_fold_phase (g : TraceGraph) (iid : Nat) (kind : Option TraceKind) :
    ∀ (l : List Nat) (acc : Trimmer × List Nat),
      PhaseStep g acc.1 ((l.foldl (issue_trace_fold_step g iid kind) acc).1) ∧
      ((l.foldl (issue_trace_fold_step g iid kind) acc).1).out.issue_instances =
        acc.1.out.issue_instances ∧
      (∀ x ∈ acc.2, x ∈ (l.foldl (issue_trace_fold_step g iid kind) acc).2) := by
  intro l
  induction l with
  | nil => intro acc; exact ⟨phase_step_refl g acc.1, rfl, fun x hx => hx⟩
  | cons fid0 rest ih =>
    intro acc
    rw [List.foldl_cons]
    obtain ⟨sp, si, sl⟩ := issue_trace_step_phase g iid kind acc fid0
    obtain ⟨ip, ii, il⟩ := ih (issue_trace_fold_step g iid kind acc fid0)
    exact ⟨phase_step_trans g _ _ _ sp ip, ii.trans si,
      fun x hx => il x (sl x hx)⟩

/-- Every worklist id resolving to a frame of the requested kind ends up
both associated with the instance and collected for trace population. -/
theorem issue_trace_fold_hits (g : TraceGraph) (iid : Nat) (kind : Option TraceKind) :
    ∀ (l : List Nat) (acc : Trimmer × List Nat) (fid : Nat) (f : TraceFrame),
      fid ∈ l → g.frame_by_id fid = some f →
      kind.all (fun k => k == f.kind) = true →
      ((iid, fid) ∈ ((l.foldl (issue_trace_fold_step g iid kind)
          acc).1).out.issue_instance_trace_frame_assoc ∧
        fid ∈ (l.foldl (issue_trace_fold_step g iid kind) acc).2) := by
  intro l
  induction l with
  | nil => intro acc fid f hf; exact absurd hf (List.not_mem_nil fid)
  | cons fid0 rest ih =>
    intro acc fid f hmem hf hk
    rw [List.foldl_cons]
    rcases List.mem_cons.mp hmem with h1 | h1
    · subst h1
      have hassoc1 : (iid, fid) ∈
          (issue_trace_fold_step g iid kind acc fid).1.out.issue_instance_trace_frame_assoc := by
        unfold issue_trace_fold_step
        rw [hf]
        dsimp only
        rw [if_pos (by rw [hk])]
        exact add_tf_assoc_self acc.1.out iid fid
      have hlist1 : fid ∈ (issue_trace_fold_step g iid kind acc fid).2 := by
        unfold issue_trace_fold_step
        rw [hf]
        dsimp only
        rw [if_pos (by rw [hk])]
        exact List.mem_append_right _ (List.mem_singleton.mpr rfl)
      obtain ⟨ip, _, il⟩ := issue_trace_fold_phase g iid kind rest
        (issue_trace_fold_step g iid kind acc fid)
      exact ⟨ip.assoc_mono _ hassoc1, il fid hlist1⟩
    · exact ih _ fid f h1 hf hk

/-- `_populate_issue_trace` is a `PhaseStep` that never adds or removes
issue instances. -/
theorem populate_issue_trace_phase (g : TraceGraph) (fuel : Nat) (iid : Nat)
    (kind : Option TraceKind) (s s' : Trimmer)
    (hrun : populate_issue_trace g fuel iid kind s = some s') :
    PhaseStep g s s' ∧ s'.out.issue_instances = s.out.issue_instances := by
  unfold populate_issue_trace at hrun
  cases hinst : g.instance_by_id iid with
  | none =>
    rw [hinst] at hrun
    have hss : s = s' := Option.some.inj hrun
    subst hss
    exact ⟨phase_step_refl g s, rfl⟩
  | some inst =>
    rw [hinst] at hrun
    dsimp only at hrun
    obtain ⟨fp, fi, _⟩ := issue_trace_fold_phase g iid kind
      (g.instance_tf_assoc_ids iid) (s, [])
    have tp : TrioStep g _ s' := populate_trace_trio g fuel _ _ _ hrun
    exact ⟨phase_step_trans g _ _ _ fp (phase_step_of_trio g _ _ tp),
      tp.inst_eq.trans fi⟩

/-- When the source graph records a first hop of the requested kind for
the instance, a completed `_populate_issue_trace` of that kind leaves
the association and the frame itself in the trimmed graph. -/
theorem populate_issue_trace_spec (g : TraceGraph) (fuel : Nat) (iid : Nat)
    (k : TraceKind) (s s' : Trimmer)
    (hrun : populate_issue_trace g fuel iid (some k) s = some s')
    (hcanon : FramesCanonical g s) (hback : VisitedBacked s)
    (hinst : (g.instance_by_id iid).isSome) :
    ∀ fid f, (iid, fid) ∈ g.issue_instance_trace_frame_assoc →
      g.frame_by_id fid = some f → f.kind = k →
      (iid, fid) ∈ s'.out.issue_instance_trace_frame_assoc ∧
      s'.out.frame_by_id fid = some f := by
  intro fid f hassoc hf hkind
  unfold populate_issue_trace at hrun
  obtain ⟨inst, hinst2⟩ := Option.isSome_iff_exists.mp hinst
  rw [hinst2] at hrun
  dsimp only at hrun
  have hmem : fid ∈ g.instance_tf_assoc_ids iid := by
    unfold TraceGraph.instance_tf_assoc_ids
    refine List.mem_map.mpr ⟨(iid, fid), ?_, rfl⟩
    refine List.mem_filter.mpr ⟨hassoc, by simp⟩
  have hk : (some k).all (fun x => x == f.kind) = true := by
    simp [hkind]
  obtain ⟨hassoc', hcollect⟩ := issue_trace_fold_hits g iid (some k)
    (g.instance_tf_assoc_ids iid) (s, []) fid f hmem hf hk
  obtain ⟨fp, _, _⟩ := issue_trace_fold_phase g iid (some k)
    (g.instance_tf_assoc_ids iid) (s, [])
  have tp : TrioStep g _ s' := populate_trace_trio g fuel _ _ _ hrun
  constructor
  · rw [tp.assoc_eq]
    exact hassoc'
  · have hvisited : fid ∈ s'.visited_trace_frame_ids := by
      refine populate_trace_visits g fuel _ _ s' hrun fid ?_ ?_
      · exact List.mem_reverse.mpr hcollect
      · rw [hf]; rfl
    have hback' : VisitedBacked s' := tp.backed (fp.backed hback)
    have hcanon' : FramesCanonical g s' := tp.canonical (fp.canonical hcanon)
    obtain ⟨fr, hfrmem, hfrid⟩ := hback' fid hvisited
    have hlook : (s'.out.frame_by_id fid).isSome := by
      unfold TraceGraph.frame_by_id
      rw [List.find?_isSome]
      exact ⟨fr, hfrmem, by simp [hfrid]⟩
    obtain ⟨fr', hfr'⟩ := Option.isSome_iff_exists.mp hlook
    have hfr'mem : fr' ∈ s'.out.trace_frames := frame_by_id_mem s'.out fid fr' hfr'
    have hfr'id : fr'.id = fid := frame_by_id_id s'.out fid fr' hfr'
    have : g.frame_by_id fr'.id = some fr' := hcanon' fr' hfr'mem
    rw [hfr'id, hf] at this
    rw [hfr', Option.some.inj this]

/-- Both directions of an instance are satisfied: a first hop of each
kind exists in the trimmed graph, or the source graph itself records no
(resolvable) first hop of that kind. -/
def DirectionsOk (g h : TraceGraph) (iid : Nat) : Prop :=
  (HasFirstHop h iid TraceKind.postcondition ∨
    ¬ HasFirstHop g iid TraceKind.postcondition) ∧
  (HasFirstHop h iid TraceKind.precondition ∨
    ¬ HasFirstHop g iid TraceKind.precondition)

theorem has_first_hop_mono (g : TraceGraph) (s s' : Trimmer) (p : PhaseStep g s s')
    (iid : Nat) (k : TraceKind) (h : HasFirstHop s.out iid k) :
    HasFirstHop s'.out iid k := by
  obtain ⟨fid, f, h1, h2, h3⟩ := h
  exact ⟨fid, f, p.assoc_mono _ h1, p.frame_stable fid f h2, h3⟩

theorem directions_ok_mono (g : TraceGraph) (s s' : Trimmer) (p : PhaseStep g s s')
    (iid : Nat) (h : DirectionsOk g s.out iid) : DirectionsOk g s'.out iid := by
  obtain ⟨h1, h2⟩ := h
  constructor
  · rcases h1 with h1 | h1
    · exact Or.inl (has_first_hop_mono g s s' p iid _ h1)
    · exact Or.inr h1
  · rcases h2 with h2 | h2
    · exact Or.inl (has_first_hop_mono g s s' p iid _ h2)
    · exact Or.inr h2

/-- A non-empty kind-filtered first-hop list witnesses a first hop. -/
theorem has_first_hop_of_filter (h : TraceGraph) (iid : Nat) (k : TraceKind)
    (hne : first_hop_ids_of_kind h iid k ≠ []) : HasFirstHop h iid k := by
  obtain ⟨fid, hfid⟩ := List.exists_mem_of_ne_nil _ hne
  unfold first_hop_ids_of_kind at hfid
  obtain ⟨hmem, hpred⟩ := List.mem_filter.mp hfid
  unfold TraceGraph.instance_tf_assoc_ids at hmem
  obtain ⟨a, hamem, haeq⟩ := List.mem_map.mp hmem
  obtain ⟨hamem2, hapred⟩ := List.mem_filter.mp hamem
  have ha1 : a.1 = iid := by simpa using hapred
  cases hf : h.frame_by_id fid with
  | none => rw [hf] at hpred; exact absurd hpred (by simp)
  | some f =>
    rw [hf] at hpred
    have hkind : f.kind = k := by simpa using hpred
    refine ⟨fid, f, ?_, hf, hkind⟩
    have : a = (iid, fid) := by
      have := Prod.mk.eta (p := a)
      rw [← this, ha1, haeq]
    rw [← this]
    exact hamem2

/-- The directional repair of one instance: a `PhaseStep` that keeps the
instance list and establishes `DirectionsOk` for that instance. -/
theorem repair_step_spec (g : TraceGraph) (fuel : Nat) (iid : Nat) (s s' : Trimmer)
    (hrun : repair_directions_step g fuel iid s = some s')
    (hcanon : FramesCanonical g s) (hback : VisitedBacked s)
    (hinst : (g.instance_by_id iid).isSome) :
    PhaseStep g s s' ∧ s'.out.issue_instances = s.out.issue_instances ∧
    DirectionsOk g s'.out iid := by
  unfold repair_directions_step at hrun
  dsimp only at hrun
  cases hA : (if (first_hop_ids_of_kind s.out iid TraceKind.postcondition).length == 0
      then populate_issue_trace g fuel iid (some TraceKind.postcondition) s
      else some s) with
  | none => rw [hA] at hrun; exact Option.noConfusion hrun
  | some s1 =>
    rw [hA] at hrun
    dsimp only at hrun
    have stepA : PhaseStep g s s1 ∧ s1.out.issue_instances = s.out.issue_instances := by
      by_cases hfwd : ((first_hop_ids_of_kind s.out iid
          TraceKind.postcondition).length == 0) = true
      · rw [if_pos hfwd] at hA
        exact populate_issue_trace_phase g fuel iid _ s s1 hA
      · rw [if_neg hfwd] at hA
        have hss : s = s1 := Option.some.inj hA
        subst hss
        exact ⟨phase_step_refl g s, rfl⟩
    have postOk : HasFirstHop s1.out iid TraceKind.postcondition ∨
        ¬ HasFirstHop g iid TraceKind.postcondition := by
      by_cases hfwd : ((first_hop_ids_of_kind s.out iid
          TraceKind.postcondition).length == 0) = true
      · rw [if_pos hfwd] at hA
        by_cases hg : HasFirstHop g iid TraceKind.postcondition
        · left
          obtain ⟨fid, f, h1, h2, h3⟩ := hg
          obtain ⟨ha, hb⟩ := populate_issue_trace_spec g fuel iid _ s s1 hA
            hcanon hback hinst fid f h1 h2 h3
          exact ⟨fid, f, ha, hb, h3⟩
        · exact Or.inr hg
      · rw [if_neg hfwd] at hA
        have hss : s = s1 := Option.some.inj hA
        left
        subst hss
        refine has_first_hop_of_filter s.out iid TraceKind.postcondition ?_
        intro hcontra
        apply hfwd
        rw [hcontra]
        rfl
    have hcanon1 : FramesCanonical g s1 := stepA.1.canonical hcanon
    have hback1 : VisitedBacked s1 := stepA.1.backed hback
    have preS : HasFirstHop s.out iid TraceKind.precondition ∨
        ((first_hop_ids_of_kind s.out iid TraceKind.precondition).length == 0) =
          true := by
      by_cases hbwd : ((first_hop_ids_of_kind s.out iid
          TraceKind.precondition).length == 0) = true
      · exact Or.inr hbwd
      · left
        refine has_first_hop_of_filter s.out iid TraceKind.precondition ?_
        intro hcontra
        apply hbwd
        rw [hcontra]
        rfl
    by_cases hbwd : ((first_hop_ids_of_kind s.out iid
        TraceKind.precondition).length == 0) = true
    · rw [if_pos hbwd] at hrun
      obtain ⟨stepB, instB⟩ := populate_issue_trace_phase g fuel iid _ s1 s' hrun
      refine ⟨phase_step_trans g _ _ _ stepA.1 stepB, instB.trans stepA.2, ?_, ?_⟩
      · rcases postOk with h1 | h1
        · exact Or.inl (has_first_hop_mono g s1 s' stepB iid _ h1)
        · exact Or.inr h1
      · by_cases hg : HasFirstHop g iid TraceKind.precondition
        · left
          obtain ⟨fid, f, h1, h2, h3⟩ := hg
          obtain ⟨ha, hb⟩ := populate_issue_trace_spec g fuel iid _ s1 s' hrun
            hcanon1 hback1 hinst fid f h1 h2 h3
          exact ⟨fid, f, ha, hb, h3⟩
        · exact Or.inr hg
    · rw [if_neg hbwd] at hrun
      have hss : s1 = s' := Option.some.inj hrun
      subst hss
      refine ⟨stepA.1, stepA.2, postOk, ?_⟩
      rcases preS with h1 | h1
      · exact Or.inl (has_first_hop_mono g s s1 stepA.1 iid _ h1)
      · exact absurd h1 (by simpa using hbwd)

/-- The directional-repair loop: a `PhaseStep` that keeps the instance
list and establishes `DirectionsOk` for every processed instance id. -/
theorem repair_directions_spec (g : TraceGraph) (fuel : Nat) :
    ∀ (l : List Nat) (s s' : Trimmer),
    repair_directions g fuel l s = some s' →
    FramesCanonical g s → VisitedBacked s →
    (∀ iid ∈ l, (g.instance_by_id iid).isSome) →
    PhaseStep g s s' ∧ s'.out.issue_instances = s.out.issue_instances ∧
    ∀ iid ∈ l, DirectionsOk g s'.out iid := by
  intro l
  induction l with
  | nil =>
    intro s s' h _ _ _
    have hss : s = s' := Option.some.inj h
    subst hss
    exact ⟨phase_step_refl g s, rfl, fun iid hi => absurd hi (List.not_mem_nil iid)⟩
  | cons iid rest ih =>
    intro s s' h hcanon hback hids
    rw [show repair_directions g fuel (iid :: rest) s =
      (match repair_directions_step g fuel iid s with
      | none => none
      | some s1 => repair_directions g fuel rest s1) from rfl] at h
    cases hstep : repair_directions_step g fuel iid s with
    | none => rw [hstep] at h; exact Option.noConfusion h
    | some s1 =>
      rw [hstep] at h
      obtain ⟨pA, eA, okA⟩ := repair_step_spec g fuel iid s s1 hstep hcanon hback
        (hids iid (List.mem_cons_self iid rest))
      obtain ⟨pI, eI, oks⟩ := ih s1 s' h (pA.canonical hcanon) (pA.backed hback)
        (fun j hj => hids j (List.mem_cons_of_mem iid hj))
      refine ⟨phase_step_trans g _ _ _ pA pI, eI.trans eA, ?_⟩
      intro j hj
      rcases List.mem_cons.mp hj with h1 | h1
      · subst h1
        exact directions_ok_mono g s1 s' pI j okA
      · exact oks j h1

/-- Step 1 (`_populate_affected_issues`) is a `PhaseStep`. -/
theorem populate_affected_issues_loop_phase (g : TraceGraph) (fuel : Nat) :
    ∀ (l : List Nat) (s s' : Trimmer),
    populate_affected_issues_loop g fuel l s = some s' → PhaseStep g s s' := by
  intro l
  induction l with
  | nil =>
    intro s s' h
    have hss : s = s' := Option.some.inj h
    subst hss
    exact phase_step_refl g s
  | cons iid rest ih =>
    intro s s' h
    rw [show populate_affected_issues_loop g fuel (iid :: rest) s =
      (if (s.out.instance_by_id iid).isSome then
        populate_affected_issues_loop g fuel rest s
      else
        match populate_issue_and_traces g fuel iid s with
        | none => none
        | some s1 => populate_affected_issues_loop g fuel rest s1) from rfl] at h
    by_cases hpres : (s.out.instance_by_id iid).isSome
    · rw [if_pos hpres] at h
      exact ih s s' h
    · rw [if_neg hpres] at h
      cases hpi : populate_issue_and_traces g fuel iid s with
      | none => rw [hpi] at h; exact Option.noConfusion h
      | some s1 =>
        rw [hpi] at h
        unfold populate_issue_and_traces at hpi
        obtain ⟨p1, _⟩ := populate_issue_trace_phase g fuel iid none _ s1 hpi
        exact phase_step_trans g _ _ _
          (phase_step_trans g _ _ _ (populate_issue_phase g iid s).1 p1) (ih s1 s' h)

/-- Step 3 (`_populate_issues_from_affected_conditions`) is a
`PhaseStep`. -/
theorem populate_issues_from_affected_conditions_phase (g : TraceGraph) (fuel : Nat)
    (initial : List TraceFrame) (s s' : Trimmer)
    (hrun : populate_issues_from_affected_conditions g fuel initial s = some s') :
    PhaseStep g s s' := by
  unfold populate_issues_from_affected_conditions at hrun
  cases hs : search_loop g fuel (initial_search_que g initial) [] s with
  | none => rw [hs] at hrun; exact Option.noConfusion hrun
  | some p =>
    obtain ⟨v, s1⟩ := p
    rw [hs] at hrun
    dsimp only at hrun
    cases hpt : populate_trace g fuel ((initial.map (fun c => c.id)).reverse) s1 with
    | none => rw [hpt] at hrun; exact Option.noConfusion hrun
    | some s2 =>
      rw [hpt] at hrun
      exact phase_step_trans g _ _ _ (search_loop_char g fuel _ [] s v s1 hs).1
        (phase_step_trans g _ _ _
          (phase_step_of_trio g _ _ (populate_trace_trio g fuel _ _ _ hpt))
          (phase_step_of_trio g _ _ (add_visited_frames_trio g fuel _ _ _ hrun)))

/-- The initial trimmer state satisfies all structural invariants. -/
theorem trimmer_init_invariants (g : TraceGraph) :
    FramesCanonical g Trimmer.init ∧ VisitedBacked Trimmer.init := by
  constructor
  · intro fr hfr
    exact absurd hfr (List.not_mem_nil fr)
  · intro i hi
    exact absurd hi (Finset.not_mem_empty i)

/-- Decomposition of a completed trimming run: the phases up to the
recomputation, with the structural invariants established. -/
theorem populate_pipeline_decomp (fuel : Nat) (cfg : TrimConfig) (g out : TraceGraph)
    (hrun : populate_from_trace_graph fuel cfg g = some out) :
    ∃ s3 : Trimmer, out = recompute_instance_properties s3.out ∧
      PhaseStep g Trimmer.init s3 ∧
      (cfg.affected_issues_only = false →
        ∀ iid ∈ s3.out.issue_instances.map (fun i => i.id),
          DirectionsOk g s3.out iid) := by
  unfold populate_from_trace_graph at hrun
  cases h1 : populate_affected_issues_loop g fuel (affected_instance_ids g cfg)
      Trimmer.init with
  | none => rw [h1] at hrun; exact Option.noConfusion hrun
  | some s1 =>
    rw [h1] at hrun
    dsimp only at hrun
    have phase1 : PhaseStep g Trimmer.init s1 :=
      populate_affected_issues_loop_phase g fuel _ _ s1 h1
    cases haio : cfg.affected_issues_only with
    | true =>
      rw [haio] at hrun
      rw [if_pos rfl] at hrun
      refine ⟨s1, (Option.some.inj hrun).symm, phase1, ?_⟩
      intro hfalse
      exact absurd hfalse (by simp)
    | false =>
      rw [haio] at hrun
      rw [if_neg (by simp)] at hrun
      cases h2 : populate_issues_from_affected_conditions g fuel
          (initial_trace_frames g cfg) s1 with
      | none => rw [h2] at hrun; exact Option.noConfusion hrun
      | some s2 =>
        rw [h2] at hrun
        dsimp only at hrun
        have phase2 : PhaseStep g s1 s2 :=
          populate_issues_from_affected_conditions_phase g fuel _ s1 s2 h2
        have phase12 : PhaseStep g Trimmer.init s2 :=
          phase_step_trans g _ _ _ phase1 phase2
        cases h3 : repair_directions g fuel
            (s2.out.issue_instances.map (fun i => i.id)) s2 with
        | none => rw [h3] at hrun; exact Option.noConfusion hrun
        | some s3 =>
          rw [h3] at hrun
          have hcanon2 : FramesCanonical g s2 :=
            phase12.canonical (trimmer_init_invariants g).1
          have hback2 : VisitedBacked s2 :=
            phase12.backed (trimmer_init_invariants g).2
          have hids : ∀ iid ∈ s2.out.issue_instances.map (fun i => i.id),
              (g.instance_by_id iid).isSome := by
            intro iid hiid
            obtain ⟨i, hi, hieq⟩ := List.mem_map.mp hiid
            rcases phase12.inst_origin i hi with hcase | hcase
            · exact absurd hcase (List.not_mem_nil i)
            · rw [instance_by_id_isSome_iff]
              exact ⟨i, hcase, hieq⟩
          obtain ⟨phase3, insts3, oks⟩ := repair_directions_spec g fuel _ s2 s3 h3
            hcanon2 hback2 hids
          refine ⟨s3, (Option.some.inj hrun).symm,
            phase_step_trans g _ _ _ phase12 phase3, ?_⟩
          intro _ iid hiid
          refine oks iid ?_
          rw [insts3] at hiid
          exact hiid

/-- First-hop associations and frame lookups are unaffected by the
derived-field recomputation. -/
theorem recompute_preserves_first_hop_prop (h : TraceGraph) (iid : Nat) (k : TraceKind) :
    HasFirstHop (recompute_instance_properties h) iid k ↔ HasFirstHop h iid k := by
  unfold HasFirstHop
  constructor
  · rintro ⟨fid, f, h1, h2, h3⟩
    exact ⟨fid, f, h1, h2, h3⟩
  · rintro ⟨fid, f, h1, h2, h3⟩
    exact ⟨fid, f, h1, h2, h3⟩

/-- C2: with `affected_issues_only` false, every issue instance of the
trimmed output graph has at least one POSTCONDITION first-hop
association and at least one PRECONDITION first-hop association, except
for a direction in which the source graph itself records no (resolvable)
first-hop frame for that instance: the repair step populates the full
trace of a missing direction from the source graph. -/
theorem directional_completeness (fuel : Nat) (cfg : TrimConfig) (g out : TraceGraph)
    (haio : cfg.affected_issues_only = false)
    (hrun : populate_from_trace_graph fuel cfg g = some out) :
    ∀ inst ∈ out.issue_instances,
      (HasFirstHop out inst.id TraceKind.postcondition ∨
        ¬ HasFirstHop g inst.id TraceKind.postcondition) ∧
      (HasFirstHop out inst.id TraceKind.precondition ∨
        ¬ HasFirstHop g inst.id TraceKind.precondition) := by
  obtain ⟨s3, hout, _, hoks⟩ := populate_pipeline_decomp fuel cfg g out hrun
  intro inst hmem
  rw [hout] at hmem
  unfold recompute_instance_properties at hmem
  obtain ⟨inst0, hmem0, heq0⟩ := List.mem_map.mp hmem
  have hok : DirectionsOk g s3.out inst0.id := by
    refine hoks haio inst0.id ?_
    exact List.mem_map.mpr ⟨inst0, hmem0, rfl⟩
  have hid : inst.id = inst0.id := by
    rw [← heq0]
  obtain ⟨hpost, hpre⟩ := hok
  rw [hout, hid]
  constructor
  · rcases hpost with h1 | h1
    · exact Or.inl ((recompute_preserves_first_hop_prop s3.out inst0.id _).mpr h1)
    · exact Or.inr h1
  · rcases hpre with h1 | h1
    · exact Or.inl ((recompute_preserves_first_hop_prop s3.out inst0.id _).mpr h1)
    · exact Or.inr h1

/-- C2 — witness: on `gW` (one instance with only a POSTCONDITION first
hop in the source graph) the trimmed instance keeps its POSTCONDITION
hop, and the missing PRECONDITION side is excused by the source graph
recording none. -/
theorem directional_completeness_witness :
    ∃ out, populate_from_trace_graph 50 ⟨["/a/"], false⟩ gW = some out ∧
      ∀ inst ∈ out.issue_instances,
        (HasFirstHop out inst.id TraceKind.postcondition ∨
          ¬ HasFirstHop gW inst.id TraceKind.postcondition) ∧
        (HasFirstHop out inst.id TraceKind.precondition ∨
          ¬ HasFirstHop gW inst.id TraceKind.precondition) := by
  cases hrun : populate_from_trace_graph 50 ⟨["/a/"], false⟩ gW with
  | none => exact absurd hrun (by decide)
  | some out =>
    refine ⟨out, rfl, ?_⟩
    exact directional_completeness 50 ⟨["/a/"], false⟩ gW out rfl hrun

/-- C5: the trimmer reads the source graph and writes only the
destination.  In the embedding this is witnessed on two levels: the
source graph handed to (and read throughout) a completed run is
returned unchanged, and every issue instance of the output is a record
copied from the source graph — equal in every field except the three
derived ones the trimmer recomputes on its own copy
(`min_trace_length_to_sources`, `min_trace_length_to_sinks`,
`callable_count`). -/
theorem trimmer_never_mutates_source (fuel : Nat) (cfg : TrimConfig)
    (g out gsrc : TraceGraph)
    (hrun : populate_from_trace_graph_tracked fuel cfg g = some (out, gsrc)) :
    gsrc = g ∧
    ∀ j ∈ out.issue_instances, ∃ i ∈ g.issue_instances,
      j.id = i.id ∧ j.issue_id = i.issue_id ∧ j.filename_id = i.filename_id ∧
      j.callable_id = i.callable_id ∧ j.message_id = i.message_id := by
  unfold populate_from_trace_graph_tracked at hrun
  cases hp : populate_from_trace_graph fuel cfg g with
  | none => rw [hp] at hrun; exact Option.noConfusion hrun
  | some o =>
    rw [hp] at hrun
    have hpair : (o, g) = (out, gsrc) := Option.some.inj hrun
    have ho : o = out := congrArg Prod.fst hpair
    have hg : g = gsrc := congrArg Prod.snd hpair
    subst ho
    refine ⟨hg.symm, ?_⟩
    obtain ⟨s3, hout, phase, _⟩ := populate_pipeline_decomp fuel cfg g o hp
    intro j hj
    rw [hout] at hj
    unfold recompute_instance_properties at hj
    obtain ⟨i0, hi0, heq⟩ := List.mem_map.mp hj
    have hi0g : i0 ∈ g.issue_instances := by
      rcases phase.inst_origin i0 hi0 with hcase | hcase
      · exact absurd hcase (List.not_mem_nil i0)
      · exact hcase
    refine ⟨i0, hi0g, ?_, ?_, ?_, ?_, ?_⟩ <;> rw [← heq]

/-- C5 — witness: a completed tracked run on `gW` returns the source
graph unchanged and only copied instance records. -/
theorem trimmer_never_mutates_source_witness :
    ∃ out gsrc, populate_from_trace_graph_tracked 50 ⟨["/a/"], false⟩ gW =
      some (out, gsrc) ∧ gsrc = gW ∧
      ∀ j ∈ out.issue_instances, ∃ i ∈ gW.issue_instances, j.id = i.id := by
  cases hrun : populate_from_trace_graph_tracked 50 ⟨["/a/"], false⟩ gW with
  | none => exact absurd hrun (by decide)
  | some p =>
    obtain ⟨out, gsrc⟩ := p
    obtain ⟨h1, h2⟩ := trimmer_never_mutates_source 50 ⟨["/a/"], false⟩ gW out gsrc hrun
    refine ⟨out, gsrc, rfl, h1, ?_⟩
    intro j hj
    obtain ⟨i, hi, hid, _⟩ := h2 j hj
    exact ⟨i, hi, hid⟩

/-! ### C3: termination of the backward condition search

The search state is measured by the number of condition/leaf facts not
yet recorded in `visited` (bounded by the finite frame-id and leaf-id
universes of the source graph) and the worklist length: a skipped
revisit shortens the worklist, and any other step records at least one
new fact while pushing at most one entry per trace frame of the graph. -/

/-- All leaf ids the search can ever handle: those recorded by leaf
associations plus all caller-side ids of the frames' leaf mappings. -/
def leaf_universe (g : TraceGraph) : Finset Nat :=
  ((g.trace_frame_leaf_assoc.map (fun (a : Nat × Nat × Option Nat) => a.2.1)) ++
    (g.trace_frames.foldr
      (fun (f : TraceFrame) (acc : List Nat) =>
        f.leaf_mapping.map (fun m => m.caller_leaf) ++ acc) [])).toFinset

/-- The ids of the source graph's trace frames. -/
def frame_id_universe (g : TraceGraph) : Finset Nat :=
  (g.trace_frames.map (fun f => f.id)).toFinset

/-- One unit per visited condition plus one per recorded leaf. -/
def visited_size (v : List (Nat × Finset Nat)) : Nat :=
  (v.map (fun e => 1 + e.2.card)).sum

def search_K (g : TraceGraph) : Nat :=
  (frame_id_universe g).card * (1 + (leaf_universe g).card)

def search_P (g : TraceGraph) : Nat := g.trace_frames.length

def search_measure (g : TraceGraph) (v : List (Nat × Finset Nat))
    (que : List (TraceFrame × Finset Nat)) : Nat :=
  (search_K g - visited_size v) * (search_P g + 1) + que.length

/-- A fuel budget sufficient for the whole search from the given initial
conditions. -/
def search_fuel_bound (g : TraceGraph) (initial : List TraceFrame) : Nat :=
  search_K g * (search_P g + 1) + initial.length

/-- The invariant of the search state: worklist frames are frames of the
graph carrying leaf sets inside the leaf universe, and the visited map
binds distinct frame ids of the graph to leaf sets inside the leaf
universe. -/
def SearchInv (g : TraceGraph) (que : List (TraceFrame × Finset Nat))
    (v : List (Nat × Finset Nat)) : Prop :=
  (∀ e ∈ que, e.1 ∈ g.trace_frames ∧ e.2 ⊆ leaf_universe g) ∧
  (∀ e ∈ v, e.1 ∈ frame_id_universe g ∧ e.2 ⊆ leaf_universe g) ∧
  (v.map (fun e => e.1)).Nodup

theorem incoming_leaf_kinds_subset (g : TraceGraph) (f : TraceFrame) :
    g.get_incoming_leaf_kinds_of_frame f ⊆ leaf_universe g := by
  intro x hx
  unfold TraceGraph.get_incoming_leaf_kinds_of_frame at hx
  rw [List.mem_toFinset] at hx
  obtain ⟨p, hp, hpx⟩ := List.mem_map.mp hx
  unfold TraceGraph.leaf_assocs_of at hp
  obtain ⟨a, ha, hax⟩ := List.mem_map.mp hp
  unfold leaf_universe
  rw [List.mem_toFinset]
  refine List.mem_append_left _ ?_
  refine List.mem_map.mpr ⟨a, List.mem_of_mem_filter ha, ?_⟩
  rw [hax, hpx]

theorem mem_caller_foldr (fs : List TraceFrame) (f : TraceFrame)
    (hf : f ∈ fs) (x : Nat)
    (hx : x ∈ f.leaf_mapping.map (fun m => m.caller_leaf)) :
    x ∈ fs.foldr
      (fun (f : TraceFrame) (acc : List Nat) =>
        f.leaf_mapping.map (fun m => m.caller_leaf) ++ acc) [] := by
  induction fs with
  | nil => exact absurd hf (List.not_mem_nil f)
  | cons f0 rest ih =>
    rw [List.foldr_cons]
    rcases List.mem_cons.mp hf with h1 | h1
    · subst h1
      exact List.mem_append_left _ hx
    · exact List.mem_append_right _ (ih h1)

theorem mapping_caller_subset (g : TraceGraph) (f : TraceFrame)
    (hf : f ∈ g.trace_frames) (x : Nat)
    (hx : x ∈ f.leaf_mapping.map (fun m => m.caller_leaf)) :
    x ∈ leaf_universe g := by
  unfold leaf_universe
  rw [List.mem_toFinset]
  exact List.mem_append_right _ (mem_caller_foldr g.trace_frames f hf x hx)

theorem compute_prev_subset (g : TraceGraph) (f : TraceFrame)
    (hf : f ∈ g.trace_frames) (leaves : Finset Nat) :
    compute_prev_leaf_kinds leaves f.leaf_mapping ⊆ leaf_universe g := by
  intro x hx
  unfold compute_prev_leaf_kinds at hx
  rw [List.mem_toFinset] at hx
  obtain ⟨m, hm, hmx⟩ := List.mem_map.mp hx
  refine mapping_caller_subset g f hf x ?_
  exact List.mem_map.mpr ⟨m, List.mem_of_mem_filter hm, hmx⟩

theorem visited_size_cons (e : Nat × Finset Nat) (v : List (Nat × Finset Nat)) :
    visited_size (e :: v) = 1 + e.2.card + visited_size v := by
  unfold visited_size
  rw [List.map_cons, List.sum_cons]

theorem visited_size_le (U : Finset Nat) (v : List (Nat × Finset Nat))
    (h : ∀ e ∈ v, e.2 ⊆ U) : visited_size v ≤ v.length * (1 + U.card) := by
  induction v with
  | nil => simp [visited_size]
  | cons e rest ih =>
    have hcard : e.2.card ≤ U.card :=
      Finset.card_le_card (h e (List.mem_cons_self e rest))
    have hrest : visited_size rest ≤ rest.length * (1 + U.card) :=
      ih (fun x hx => h x (List.mem_cons_of_mem e hx))
    have hs := visited_size_cons e rest
    have hm : (e :: rest).length * (1 + U.card) =
        rest.length * (1 + U.card) + (1 + U.card) := by
      rw [List.length_cons, Nat.succ_mul]
    omega

theorem visited_keys_length_le (g : TraceGraph) (v : List (Nat × Finset Nat))
    (hmem : ∀ e ∈ v, e.1 ∈ frame_id_universe g)
    (hnd : (v.map (fun e => e.1)).Nodup) :
    v.length ≤ (frame_id_universe g).card := by
  have h1 : (v.map (fun e => e.1)).toFinset.card = (v.map (fun e => e.1)).length :=
    List.toFinset_card_of_nodup hnd
  have h2 : (v.map (fun e => e.1)).toFinset ⊆ frame_id_universe g := by
    intro x hx
    rw [List.mem_toFinset] at hx
    obtain ⟨e, he, hex⟩ := List.mem_map.mp hx
    rw [← hex]
    exact hmem e he
  have := Finset.card_le_card h2
  rw [h1, List.length_map] at this
  exact this

theorem visited_size_le_K (g : TraceGraph) (v : List (Nat × Finset Nat))
    (hmem : ∀ e ∈ v, e.1 ∈ frame_id_universe g ∧ e.2 ⊆ leaf_universe g)
    (hnd : (v.map (fun e => e.1)).Nodup) :
    visited_size v ≤ search_K g := by
  have h1 : visited_size v ≤ v.length * (1 + (leaf_universe g).card) :=
    visited_size_le _ v (fun e he => (hmem e he).2)
  have h2 : v.length ≤ (frame_id_universe g).card :=
    visited_keys_length_le g v (fun e he => (hmem e he).1) hnd
  calc visited_size v ≤ v.length * (1 + (leaf_universe g).card) := h1
    _ ≤ (frame_id_universe g).card * (1 + (leaf_universe g).card) :=
      Nat.mul_le_mul_right _ h2
    _ = search_K g := rfl

theorem visited_update_cons (e : Nat × Finset Nat) (rest : List (Nat × Finset Nat))
    (c : Nat) (ls : Finset Nat) :
    visited_update (e :: rest) c ls =
      (if e.1 == c then (e.1, ls) else e) :: visited_update rest c ls := rfl

theorem visited_update_id (v : List (Nat × Finset Nat)) (c : Nat) (ls : Finset Nat)
    (h : ∀ e ∈ v, (e.1 == c) = false) : visited_update v c ls = v := by
  induction v with
  | nil => rfl
  | cons e rest ih =>
    rw [visited_update_cons]
    rw [if_neg (by rw [h e (List.mem_cons_self e rest)]; exact Bool.false_ne_true)]
    rw [ih (fun x hx => h x (List.mem_cons_of_mem e hx))]

theorem visited_update_keys (v : List (Nat × Finset Nat)) (c : Nat) (ls : Finset Nat) :
    (visited_update v c ls).map (fun e => e.1) = v.map (fun e => e.1) := by
  induction v with
  | nil => rfl
  | cons e rest ih =>
    rw [visited_update_cons, List.map_cons, List.map_cons, ih]
    by_cases he : (e.1 == c) = true
    · rw [if_pos he]
    · rw [if_neg he]

theorem visited_update_size (v : List (Nat × Finset Nat)) (c : Nat)
    (old ls : Finset Nat) (hnd : (v.map (fun e => e.1)).Nodup)
    (h : visited_lookup v c = some old) :
    visited_size (visited_update v c ls) + old.card = visited_size v + ls.card := by
  induction v with
  | nil => exact absurd h (by simp [visited_lookup])
  | cons e rest ih =>
    rw [List.map_cons, List.nodup_cons] at hnd
    rw [visited_update_cons]
    by_cases he : (e.1 == c) = true
    · rw [if_pos he]
      have hold : old = e.2 := by
        unfold visited_lookup at h
        rw [List.find?_cons] at h
        simp only [he] at h
        exact (Option.some.inj h).symm
      have hrest : visited_update rest c ls = rest := by
        refine visited_update_id rest c ls ?_
        intro x hx
        have hx1 : x.1 ∈ rest.map (fun e => e.1) := List.mem_map.mpr ⟨x, hx, rfl⟩
        have he1 : e.1 = c := by simpa using he
        by_cases hxc : (x.1 == c) = true
        · exfalso
          have hx2 : x.1 = c := by simpa using hxc
          exact hnd.1 (by rw [← he1] at hx2; rw [← hx2]; exact hx1)
        · simpa using hxc
      rw [hrest]
      have h1 : visited_size ((e.1, ls) :: rest) = 1 + ls.card + visited_size rest :=
        visited_size_cons (e.1, ls) rest
      have h2 := visited_size_cons e rest
      rw [h1, h2, hold]
      omega
    · rw [if_neg he]
      have hlk : visited_lookup rest c = some old := by
        unfold visited_lookup at h ⊢
        rw [List.find?_cons] at h
        have he2 : (e.1 == c) = false := by simpa using he
        simp only [he2] at h
        exact h
      have hih := ih hnd.2 hlk
      have h1 := visited_size_cons e (visited_update rest c ls)
      have h2 := visited_size_cons e rest
      rw [h1, h2]
      omega

theorem search_push_length (preds que : List (TraceFrame × Finset Nat)) :
    (search_push preds que).length ≤ preds.length + que.length := by
  unfold search_push
  rw [List.length_append, List.length_reverse]
  have := List.length_filter_le (fun pr => decide (pr.2 ≠ ∅)) preds
  omega

theorem get_predecessor_frames_length (g : TraceGraph) (leaves : Finset Nat)
    (f : TraceFrame) : (get_predecessor_frames g leaves f).length ≤ search_P g := by
  unfold get_predecessor_frames TraceGraph.rev_map_frames search_P
  rw [List.length_map]
  exact List.length_filter_le _ _

theorem search_push_inv (g : TraceGraph) (leaves : Finset Nat) (condition : TraceFrame)
    (que : List (TraceFrame × Finset Nat))
    (hque : ∀ e ∈ que, e.1 ∈ g.trace_frames ∧ e.2 ⊆ leaf_universe g) :
    ∀ e ∈ search_push (get_predecessor_frames g leaves condition) que,
      e.1 ∈ g.trace_frames ∧ e.2 ⊆ leaf_universe g := by
  intro e he
  unfold search_push at he
  rcases List.mem_append.mp he with h1 | h1
  · rw [List.mem_reverse] at h1
    have h2 := List.mem_of_mem_filter h1
    unfold get_predecessor_frames at h2
    obtain ⟨p, hp, hpe⟩ := List.mem_map.mp h2
    have hpmem : p ∈ g.trace_frames := by
      unfold TraceGraph.rev_map_frames at hp
      exact List.mem_of_mem_filter hp
    constructor
    · rw [← hpe]
      exact hpmem
    · rw [← hpe]
      exact compute_prev_subset g p hpmem leaves
  · exact hque e h1

theorem frame_id_mem_universe (g : TraceGraph) (f : TraceFrame)
    (hf : f ∈ g.trace_frames) : f.id ∈ frame_id_universe g := by
  unfold frame_id_universe
  rw [List.mem_toFinset]
  exact List.mem_map.mpr ⟨f, hf, rfl⟩

theorem visited_lookup_subset (g : TraceGraph) (v : List (Nat × Finset Nat))
    (c : Nat) (old : Finset Nat)
    (hv : ∀ e ∈ v, e.1 ∈ frame_id_universe g ∧ e.2 ⊆ leaf_universe g)
    (h : visited_lookup v c = some old) : old ⊆ leaf_universe g := by
  unfold visited_lookup at h
  cases hf : v.find? (fun e => e.1 == c) with
  | none => rw [hf] at h; exact absurd h (by simp)
  | some e =>
    rw [hf] at h
    have hmem : e ∈ v := List.mem_of_find?_eq_some hf
    have hold : e.2 = old := by simpa using h
    rw [← hold]
    exact (hv e hmem).2

theorem visited_lookup_none_all (v : List (Nat × Finset Nat)) (c : Nat)
    (h : visited_lookup v c = none) : ∀ e ∈ v, (e.1 == c) = false := by
  unfold visited_lookup at h
  cases hf : v.find? (fun e => e.1 == c) with
  | none =>
    intro e he
    have := List.find?_eq_none.mp hf e he
    simpa using this
  | some e => rw [hf] at h; exact absurd h (by simp)

theorem visited_update_inv (g : TraceGraph) (v : List (Nat × Finset Nat)) (c : Nat)
    (ls : Finset Nat)
    (hv : ∀ e ∈ v, e.1 ∈ frame_id_universe g ∧ e.2 ⊆ leaf_universe g)
    (hls : ls ⊆ leaf_universe g) :
    ∀ e ∈ visited_update v c ls, e.1 ∈ frame_id_universe g ∧ e.2 ⊆ leaf_universe g := by
  intro e he
  unfold visited_update at he
  obtain ⟨e0, he0, heq⟩ := List.mem_map.mp he
  by_cases hc : (e0.1 == c) = true
  · rw [if_pos hc] at heq
    rw [← heq]
    exact ⟨(hv e0 he0).1, hls⟩
  · rw [if_neg hc] at heq
    rw [← heq]
    exact hv e0 he0

theorem search_push_le (g : TraceGraph) (leaves : Finset Nat)
    (condition : TraceFrame) (que : List (TraceFrame × Finset Nat)) :
    (search_push (get_predecessor_frames g leaves condition) que).length ≤
      search_P g + que.length := by
  have h1 := search_push_length (get_predecessor_frames g leaves condition) que
  have h2 := get_predecessor_frames_length g leaves condition
  omega

theorem search_measure_dec (K P V VS q qS fuel : Nat)
    (h1 : V + 1 ≤ VS) (h2 : VS ≤ K) (h3 : qS ≤ P + q)
    (h4 : (K - V) * (P + 1) + (q + 1) ≤ fuel + 1) :
    (K - VS) * (P + 1) + qS ≤ fuel := by
  obtain ⟨a, hA⟩ : ∃ a, K - V = a + 1 := ⟨K - V - 1, by omega⟩
  have hb : K - VS ≤ a := by omega
  have hmul : (K - VS) * (P + 1) ≤ a * (P + 1) := Nat.mul_le_mul_right _ hb
  have hKV : (K - V) * (P + 1) = a * (P + 1) + (P + 1) := by
    rw [hA, add_one_mul]
  omega

theorem search_loop_total (g : TraceGraph) : ∀ (fuel : Nat)
    (que : List (TraceFrame × Finset Nat)) (visited : List (Nat × Finset Nat))
    (s : Trimmer), SearchInv g que visited →
    search_measure g visited que ≤ fuel →
    (search_loop g fuel que visited s).isSome := by
  intro fuel
  induction fuel with
  | zero =>
    intro que visited s _hinv hm
    cases que with
    | nil => rfl
    | cons e rest =>
      exfalso
      unfold search_measure at hm
      rw [List.length_cons] at hm
      omega
  | succ n ih =>
    intro que visited s hinv hm
    cases que with
    | nil => rfl
    | cons e rest =>
      obtain ⟨condition, leaves0⟩ := e
      obtain ⟨hque, hvis, hnd⟩ := hinv
      rw [show search_loop g (Nat.succ n) ((condition, leaves0) :: rest) visited s =
        (match visited_lookup visited condition.id with
        | some old =>
          if leaves0 \ old = ∅ then
            search_loop g n rest visited s
          else
            search_loop g n
              (search_push (get_predecessor_frames g (leaves0 \ old) condition) rest)
              (visited_update visited condition.id (old ∪ (leaves0 \ old)))
              (process_condition_instances g condition.id (leaves0 \ old) s)
        | none =>
          search_loop g n
            (search_push (get_predecessor_frames g leaves0 condition) rest)
            ((condition.id, leaves0) :: visited)
            (process_condition_instances g condition.id leaves0 s)) from rfl]
      have hrest : ∀ e ∈ rest, e.1 ∈ g.trace_frames ∧ e.2 ⊆ leaf_universe g :=
        fun e he => hque e (List.mem_cons_of_mem _ he)
      have hhead := hque (condition, leaves0)
        (List.mem_cons_self (condition, leaves0) rest)
      cases hlk : visited_lookup visited condition.id with
      | some old =>
        dsimp only
        by_cases hemp : leaves0 \ old = ∅
        · rw [if_pos hemp]
          refine ih rest visited s ⟨hrest, hvis, hnd⟩ ?_
          unfold search_measure at hm ⊢
          rw [List.length_cons] at hm
          omega
        · rw [if_neg hemp]
          have hold_sub : old ⊆ leaf_universe g :=
            visited_lookup_subset g visited condition.id old hvis hlk
          have hnew_sub : old ∪ (leaves0 \ old) ⊆ leaf_universe g :=
            Finset.union_subset hold_sub
              (fun x hx => hhead.2 (Finset.sdiff_subset hx))
          have hvis1 := visited_update_inv g visited condition.id
            (old ∪ (leaves0 \ old)) hvis hnew_sub
          have hnd1 : ((visited_update visited condition.id
              (old ∪ (leaves0 \ old))).map (fun e => e.1)).Nodup := by
            rw [visited_update_keys]
            exact hnd
          refine ih _ _ _
            ⟨search_push_inv g (leaves0 \ old) condition rest hrest, hvis1, hnd1⟩ ?_
          have hVle := visited_size_le_K g _ hvis1 hnd1
          have hVsz := visited_update_size visited condition.id old
            (old ∪ (leaves0 \ old)) hnd hlk
          have hcard : (old ∪ (leaves0 \ old)).card =
              old.card + (leaves0 \ old).card :=
            Finset.card_union_of_disjoint Finset.sdiff_disjoint.symm
          have hpos : 1 ≤ (leaves0 \ old).card :=
            Finset.card_pos.mpr (Finset.nonempty_iff_ne_empty.mpr hemp)
          have hq := search_push_le g (leaves0 \ old) condition rest
          unfold search_measure at hm ⊢
          rw [List.length_cons] at hm
          exact search_measure_dec (search_K g) (search_P g)
            (visited_size visited) _ rest.length _ n (by omega) hVle hq hm
      | none =>
        dsimp only
        have hkeys := visited_lookup_none_all visited condition.id hlk
        have hvis1 : ∀ e ∈ (condition.id, leaves0) :: visited,
            e.1 ∈ frame_id_universe g ∧ e.2 ⊆ leaf_universe g := by
          intro e he
          rcases List.mem_cons.mp he with h1 | h1
          · rw [h1]
            exact ⟨frame_id_mem_universe g condition hhead.1, hhead.2⟩
          · exact hvis e h1
        have hnd1 : (((condition.id, leaves0) :: visited).map
            (fun e => e.1)).Nodup := by
          rw [List.map_cons]
          refine List.nodup_cons.mpr ⟨?_, hnd⟩
          intro hmem
          obtain ⟨e, he, hee⟩ := List.mem_map.mp hmem
          have := hkeys e he
          rw [hee] at this
          simp at this
        refine ih _ _ _
          ⟨search_push_inv g leaves0 condition rest hrest, hvis1, hnd1⟩ ?_
        have hVle := visited_size_le_K g _ hvis1 hnd1
        have hVsz : visited_size ((condition.id, leaves0) :: visited) =
            1 + leaves0.card + visited_size visited :=
          visited_size_cons (condition.id, leaves0) visited
        have hq := search_push_le g leaves0 condition rest
        unfold search_measure at hm ⊢
        rw [List.length_cons] at hm
        exact search_measure_dec (search_K g) (search_P g)
          (visited_size visited) _ rest.length _ n (by omega) hVle hq hm

theorem initial_search_que_inv (g : TraceGraph) (initial : List TraceFrame)
    (hinit : ∀ f ∈ initial, f ∈ g.trace_frames) :
    ∀ e ∈ initial_search_que g initial,
      e.1 ∈ g.trace_frames ∧ e.2 ⊆ leaf_universe g := by
  intro e he
  unfold initial_search_que at he
  rw [List.mem_reverse] at he
  obtain ⟨f, hf, hfe⟩ := List.mem_map.mp he
  rw [← hfe]
  exact ⟨hinit f hf, incoming_leaf_kinds_subset g f⟩

theorem initial_search_que_length (g : TraceGraph) (initial : List TraceFrame) :
    (initial_search_que g initial).length = initial.length := by
  unfold initial_search_que
  rw [List.length_reverse, List.length_map]

/-- C3: the backward condition search of step 3 terminates on every
finite source graph, including cyclic call graphs.  The visited leaf set
of a frame only grows, a dequeued frame none of whose incoming leaves is
new is skipped without expansion, and every expansion records at least
one new (frame, leaf) fact out of the finite universe
`frame_id_universe × leaf_universe`, pushing at most one entry per trace
frame of the graph; so the loop run from any initial conditions of the
graph returns within the explicit fuel bound `search_fuel_bound`. -/
theorem search_loop_terminates (g : TraceGraph) (initial : List TraceFrame)
    (s : Trimmer) (hinit : ∀ f ∈ initial, f ∈ g.trace_frames) :
    (search_loop g (search_fuel_bound g initial)
      (initial_search_que g initial) [] s).isSome := by
  refine search_loop_total g _ _ _ s
    ⟨initial_search_que_inv g initial hinit, ?_, ?_⟩ ?_
  · intro e he
    exact absurd he (List.not_mem_nil e)
  · exact List.nodup_nil
  · unfold search_measure search_fuel_bound
    rw [initial_search_que_length]
    have h0 : visited_size ([] : List (Nat × Finset Nat)) = 0 := rfl
    rw [h0, Nat.sub_zero]

/-- A two-frame cyclic call graph: each precondition frame is the other
one's predecessor, and their shared leaf mapping keeps leaf 10 active
forever, so only the visited-set narrowing stops the search. -/
def cycA : TraceFrame := ⟨311, TraceKind.precondition, 3, "a", 3, "b", 4, [⟨10, 10⟩]⟩

def cycB : TraceFrame := ⟨312, TraceKind.precondition, 3, "b", 3, "a", 4, [⟨10, 10⟩]⟩

def gCyc : TraceGraph :=
  { shared_texts := [⟨4, "/shared/s.py", SharedTextKind.filename⟩,
      ⟨10, "L1", SharedTextKind.source⟩]
    issues := []
    issue_instances := []
    trace_frames := [cycA, cycB]
    trace_annots := []
    issue_instance_fix_info := []
    issue_instance_trace_frame_assoc := []
    issue_instance_shared_text_assoc := []
    trace_frame_leaf_assoc := [(311, 10, some 1), (312, 10, some 1)]
    trace_frame_annot_trace_frame_assoc := [] }

/-- C3 — witness: on the concrete cyclic two-frame graph the theorem
applies and the search run from both frames returns. -/
theorem search_loop_terminates_witness :
    (∀ f ∈ [cycA, cycB], f ∈ gCyc.trace_frames) ∧
    (search_loop gCyc (search_fuel_bound gCyc [cycA, cycB])
      (initial_search_que gCyc [cycA, cycB]) [] Trimmer.init).isSome :=
  ⟨by decide, search_loop_terminates gCyc [cycA, cycB] Trimmer.init (by decide)⟩

end Sapp
